import Mathlib

/-!
# abe-indexer: the chain transaction indexer

A shallow embedding of `internal/logic/indexer/indexer_abelian.go`
(`AbelianIndexer`: `NewAbelianIndexer`, `ParseBlock`, `CheckConfirmations`,
`parseTx`, `parseToAddress`, `parseFromAddress`, `parseAddress`) and the
properties proved about it.

Conventions of the embedding:

* a Go return tuple is a Lean tuple; a pointer or error that may be `nil` is
  an `Option`; a slice is a `Slice` (`none` is the nil slice);
* a run-time panic (index out of range, nil dereference) is the `error` side
  of `Go α = Except Panic α`; a normal return is the `ok` side;
* the RPC client and the btcd libraries (`txscript`, `btcutil`, `chainhash`)
  are collaborators: pure functions of a fixed chain state, carried by
  `Client` and `Deps`; a collaborator returns a value or an error;
* `int64` arithmetic wraps (`wrapInt64`); `uint64` and `int` values are
  naturals;
* logger calls have no effect on the results and are left out.
-/

namespace AbeIndexer

/-! ## Go runtime -/

/-- A Go slice: `none` is the nil slice, `some l` a non-nil slice holding `l`. -/
abbrev Slice (α : Type) := Option (List α)

/-- Go `len(s)`. -/
def Slice.len {α : Type} : Slice α → Nat
  | none => 0
  | some l => l.length

/-- Go `append(s, x)`: appending to the nil slice allocates. -/
def Slice.append {α : Type} (s : Slice α) (x : α) : Slice α :=
  match s with
  | none => some [x]
  | some l => some (l ++ [x])

/-- The elements of a slice. -/
def Slice.elems {α : Type} : Slice α → List α
  | none => []
  | some l => l

/-- Two's-complement wrap of an integer into the `int64` range. -/
def wrapInt64 (x : Int) : Int := (x + 2 ^ 63) % 2 ^ 64 - 2 ^ 63

/-- A run-time panic. -/
inductive Panic where
  | indexOutOfRange (index length : Nat)
  | nilDereference
  deriving DecidableEq, Repr

/-- A Go call: it returns (`ok`) or panics (`error`). -/
abbrev Go (α : Type) := Except Panic α

/-! ## Errors -/

/-- Modelled from the spec: the error variables of the indexer package are
declared outside the sources. The spec lists their kinds (script parse error,
null-data script, address decode error, insufficient confirmations) as
distinct kinds that callers tell apart, so they are four distinct
`errors.New` values; their messages are the parameter `Deps.errText`. -/
inductive Sentinel where
  | ErrParsePkScript
  | ErrParsePkScriptNullData
  | ErrDecodeListenAddress
  | ErrTargetConfirmations
  deriving DecidableEq, Repr

/-- Go error values.
`sentinel` is one of the package variables; `foreign` is an error value made
by a collaborator (RPC client, btcd), which cannot wrap a variable of this
package; `errorf` is `fmt.Errorf` without `%w`; `wrapf` is `fmt.Errorf` with
one `%w` operand, remembered for `Unwrap`. -/
inductive GoErr where
  | sentinel (s : Sentinel)
  | foreign (msg : String)
  | errorf (msg : String)
  | wrapf (msg : String) (inner : GoErr)
  deriving DecidableEq, Repr

/-- Go `err.Error()`; `text` gives the messages of the package variables. -/
def GoErr.Error (text : Sentinel → String) : GoErr → String
  | .sentinel s => text s
  | .foreign msg => msg
  | .errorf msg => msg
  | .wrapf msg _ => msg

/-- Go `errors.Is(err, target)` for a package variable `target`: walk the
`Unwrap` chain and compare by identity. -/
def GoErr.Is : GoErr → Sentinel → Bool
  | .sentinel s, t => decide (s = t)
  | .foreign _, _ => false
  | .errorf _, _ => false
  | .wrapf _ inner, t => inner.Is t

/-! ## Chain data (`wire`, `chainhash`, `btcjson`) -/

/-- The type `chainhash.Hash`: 32 bytes. -/
structure Hash where
  bytes : List Nat
  deriving DecidableEq, Repr

/-- Lower-case hexadecimal rendering of a byte string (`hex.EncodeToString`). -/
def hexEncode : List Nat → List Char
  | [] => []
  | b :: rest => Nat.digitChar (b / 16 % 16) :: Nat.digitChar (b % 16) :: hexEncode rest

/-- The method `chainhash.Hash.String`: hexadecimal of the byte-reversed hash. -/
def Hash.String (h : Hash) : String := String.mk (hexEncode h.bytes.reverse)

/-- The all-zero hash, the previous-output hash of a coinbase input. -/
def zeroHash : Hash := ⟨List.replicate 32 0⟩

/-- The string the source compares a previous-output hash with. -/
def coinbaseSentinel : String :=
  "0000000000000000000000000000000000000000000000000000000000000000"

structure OutPoint where
  Hash : Hash
  Index : Nat
  deriving DecidableEq, Repr

structure TxIn where
  PreviousOutPoint : OutPoint
  SignatureScript : List Nat
  Witness : List (List Nat)
  Sequence : Nat
  deriving DecidableEq, Repr

structure TxOut where
  Value : Int
  PkScript : List Nat
  deriving DecidableEq, Repr

structure MsgTx where
  Version : Int
  TxIn : List TxIn
  TxOut : List TxOut
  LockTime : Nat
  deriving DecidableEq, Repr

structure BlockHeader where
  Version : Int
  PrevBlock : Hash
  MerkleRoot : Hash
  Timestamp : Int
  Bits : Nat
  Nonce : Nat
  deriving DecidableEq, Repr

structure MsgBlock where
  Header : BlockHeader
  Transactions : List MsgTx
  deriving DecidableEq, Repr

/-- The part of `btcjson.TxRawResult` the indexer reads. -/
structure TxRawResult where
  Txid : String
  Confirmations : Nat
  deriving DecidableEq, Repr

/-! ## Collaborators -/

/-- The type `chaincfg.Params`. -/
structure Params where
  Name : String
  deriving DecidableEq, Repr

/-- A `btcutil.Address`, seen through its `EncodeAddress` method. -/
structure Address where
  EncodeAddress : String
  deriving DecidableEq, Repr

/-- The type `txscript.ScriptClass`. -/
inductive ScriptClass where
  | NonStandardTy
  | PubKeyTy
  | PubKeyHashTy
  | WitnessV0PubKeyHashTy
  | ScriptHashTy
  | WitnessV0ScriptHashTy
  | MultiSigTy
  | NullDataTy
  | WitnessV1TaprootTy
  | WitnessUnknownTy
  deriving DecidableEq, Repr

/-- A parsed `txscript.PkScript`. -/
structure PkScript where
  Class : ScriptClass
  script : List Nat
  deriving DecidableEq, Repr

/-- What the indexer package takes from outside `indexer_abelian.go`: the
messages of its error variables and the btcd library functions it calls. -/
structure Deps where
  /-- `Error()` of each package error variable. -/
  errText : Sentinel → String
  /-- The function `btcutil.DecodeAddress`. -/
  DecodeAddress : String → Params → Except GoErr Address
  /-- The function `txscript.ParsePkScript`. -/
  ParsePkScript : List Nat → Except GoErr PkScript
  /-- The method `txscript.PkScript.Address`. -/
  PkScriptAddress : PkScript → Params → Except GoErr Address
  /-- The function `chainhash.NewHashFromStr`. -/
  NewHashFromStr : String → Except GoErr Hash
  /-- The method `wire.MsgTx.TxHash`. -/
  TxHash : MsgTx → Hash

/-- The calls of `rpcclient.Client` the indexer makes, on a fixed chain state. -/
structure Client where
  GetBlockHash : Int → Except GoErr Hash
  GetBlock : Hash → Except GoErr MsgBlock
  GetRawTransaction : Hash → Except GoErr MsgTx
  GetRawTransactionVerbose : Hash → Except GoErr TxRawResult
  GetBlockCount : Except GoErr Int

/-! ## Result types (`types`) -/

structure BitcoinFrom where
  Address : String
  deriving DecidableEq, Repr

structure BitcoinTo where
  Address : String
  Value : Int
  deriving DecidableEq, Repr

structure BitcoinTxParseResult where
  TxID : String
  TxType : Nat
  Index : Int
  Value : Int
  From : Slice BitcoinFrom
  To : String
  Tos : Slice BitcoinTo
  deriving DecidableEq, Repr

/-- Modelled from the spec: the constant `TxTypeTransfer` is declared outside
the sources; the transfer type is the only classified type and is the first
value of its enumeration, as `BtcTxTypeTransfer` in `model/deposit.go`. -/
def TxTypeTransfer : Nat := 0

/-! ## The indexer -/

/-- The struct `AbelianIndexer`, without its logger. -/
structure AbelianIndexer where
  client : Client
  chainParams : Params
  listenAddress : Address
  targetConfirmations : Nat

/-- The constructor `NewAbelianIndexer`. -/
def NewAbelianIndexer (d : Deps) (client : Client) (chainParams : Params)
    (listenAddress : String) (targetConfirmations : Nat) :
    Option AbelianIndexer × Option GoErr :=
  match d.DecodeAddress listenAddress chainParams with
  | .error err =>
    (none, some (.wrapf
      (d.errText .ErrDecodeListenAddress ++ ":" ++ err.Error d.errText)
      (.sentinel .ErrDecodeListenAddress)))
  | .ok address =>
    (some
      { client := client
        chainParams := chainParams
        listenAddress := address
        targetConfirmations := targetConfirmations }, none)

/-- The method `parseAddress`: from a pkScript to an address string. -/
def parseAddress (d : Deps) (b : AbelianIndexer) (pkScript : List Nat) :
    String × Option GoErr :=
  match d.ParsePkScript pkScript with
  | .error err =>
    ("", some (.wrapf
      (d.errText .ErrParsePkScript ++ ":" ++ err.Error d.errText)
      (.sentinel .ErrParsePkScript)))
  | .ok pk =>
    if pk.Class = ScriptClass.NullDataTy then
      ("", some (.sentinel .ErrParsePkScriptNullData))
    else
      match d.PkScriptAddress pk b.chainParams with
      | .error err =>
        ("", some (.wrapf ("PKScript to address err:" ++ err.Error d.errText) err))
      | .ok pkAddress => (pkAddress.EncodeAddress, none)

/-- The method `GetRawTransaction`. -/
def GetRawTransaction (b : AbelianIndexer) (txHash : Hash) : Except GoErr MsgTx :=
  b.client.GetRawTransaction txHash

/-- The method `GetRawTransactionVerbose`. -/
def GetRawTransactionVerbose (d : Deps) (b : AbelianIndexer) (hash : String) :
    Option TxRawResult × Option GoErr :=
  match d.NewHashFromStr hash with
  | .error err => (none, some err)
  | .ok txHash =>
    match b.client.GetRawTransactionVerbose txHash with
    | .error err => (none, some err)
    | .ok txVerbose => (some txVerbose, none)

/-- The method `GetBlockByHeight`. -/
def GetBlockByHeight (b : AbelianIndexer) (height : Int) :
    Option MsgBlock × Option GoErr :=
  match b.client.GetBlockHash height with
  | .error err => (none, some err)
  | .ok blockhash =>
    match b.client.GetBlock blockhash with
    | .error err => (none, some err)
    | .ok msgBlock => (some msgBlock, none)

/-- The method `CheckConfirmations`. -/
def CheckConfirmations (d : Deps) (b : AbelianIndexer) (hash : String) :
    Go (Option GoErr) :=
  match GetRawTransactionVerbose d b hash with
  | (_, some err) => .ok (some err)
  | (none, none) => .error Panic.nilDereference
  | (some txVerbose, none) =>
    if txVerbose.Confirmations < b.targetConfirmations then
      .ok (some (.wrapf
        (d.errText .ErrTargetConfirmations ++ ", current confirmations:"
          ++ toString txVerbose.Confirmations ++ " target confirmations: "
          ++ toString b.targetConfirmations)
        (.sentinel .ErrTargetConfirmations)))
    else
      .ok none

/-- The loop of `parseToAddress` over the remaining outputs, with the local
variables `tos`, `totalValue` and `hasListenAddress`. -/
def parseToAddressLoop (d : Deps) (b : AbelianIndexer) :
    List TxOut → Slice BitcoinTo → Int → Bool →
      Slice BitcoinTo × Int × Bool × Option GoErr
  | [], tos, totalValue, hasListenAddress =>
    (tos, totalValue, hasListenAddress, none)
  | v :: rest, tos, totalValue, hasListenAddress =>
    match parseAddress d b v.PkScript with
    | (_, some err) =>
      if err.Is .ErrParsePkScript then
        parseToAddressLoop d b rest tos totalValue hasListenAddress
      else if err.Is .ErrParsePkScriptNullData then
        parseToAddressLoop d b rest tos totalValue hasListenAddress
      else
        (none, 0, false, some err)
    | (pkAddress, none) =>
      let parseTo : BitcoinTo := { Address := pkAddress, Value := v.Value }
      if pkAddress = b.listenAddress.EncodeAddress then
        parseToAddressLoop d b rest (tos.append parseTo)
          (wrapInt64 (totalValue + v.Value)) true
      else
        parseToAddressLoop d b rest (tos.append parseTo) totalValue hasListenAddress

/-- The method `parseToAddress`. -/
def parseToAddress (d : Deps) (b : AbelianIndexer) (txOut : List TxOut) :
    Slice BitcoinTo × Int × Bool × Option GoErr :=
  parseToAddressLoop d b txOut (some []) 0 false

/-- The loop of `parseFromAddress` over the remaining inputs, with the named
result `fromAddress`. -/
def parseFromAddressLoop (d : Deps) (b : AbelianIndexer) :
    List TxIn → Slice BitcoinFrom → Go (Slice BitcoinFrom × Option GoErr)
  | [], fromAddress => .ok (fromAddress, none)
  | vin :: rest, fromAddress =>
    let prevTxID := vin.PreviousOutPoint.Hash
    if prevTxID.String = coinbaseSentinel then
      .ok (none, none)
    else
      match GetRawTransaction b prevTxID with
      | .error err =>
        .ok (none, some (.wrapf
          ("vin get raw transaction err:" ++ err.Error d.errText) err))
      | .ok vinResult =>
        if vinResult.TxOut.length = 0 then
          .ok (none, some (.errorf "vin txOut is null"))
        else
          match vinResult.TxOut[vin.PreviousOutPoint.Index]? with
          | none =>
            .error (Panic.indexOutOfRange vin.PreviousOutPoint.Index
              vinResult.TxOut.length)
          | some prevOut =>
            match parseAddress d b prevOut.PkScript with
            | (_, some err) =>
              if err.Is .ErrParsePkScript || err.Is .ErrParsePkScriptNullData then
                parseFromAddressLoop d b rest fromAddress
              else
                .ok (none, some err)
            | (vinPkAddress, none) =>
              parseFromAddressLoop d b rest
                (fromAddress.append { Address := vinPkAddress })

/-- The method `parseFromAddress`. -/
def parseFromAddress (d : Deps) (b : AbelianIndexer) (txIn : List TxIn) :
    Go (Slice BitcoinFrom × Option GoErr) :=
  parseFromAddressLoop d b txIn none

/-- The method `parseTx`. -/
def parseTx (d : Deps) (b : AbelianIndexer) (txResult : MsgTx) (index : Nat) :
    Go (Option BitcoinTxParseResult × Option GoErr) :=
  match parseToAddress d b txResult.TxOut with
  | (tos, totalValue, listenAddress, _) =>
    if listenAddress then
      match parseFromAddress d b txResult.TxIn with
      | .error p => .error p
      | .ok (_, some err) =>
        .ok (none, some (.wrapf ("vin parse err:" ++ err.Error d.errText) err))
      | .ok (fromAddress, none) =>
        if fromAddress.len = 0 then
          .ok (none, none)
        else
          .ok (some
            { TxID := (d.TxHash txResult).String
              TxType := TxTypeTransfer
              Index := (index : Int)
              Value := totalValue
              From := fromAddress
              To := b.listenAddress.EncodeAddress
              Tos := tos }, none)
    else
      .ok (none, none)

/-- The loop of `ParseBlock` over the remaining transactions; `k` is the
position of the next one and `blockParsedResult` the results so far. -/
def ParseBlockLoop (d : Deps) (b : AbelianIndexer) (txIndex : Int)
    (header : BlockHeader) :
    List MsgTx → Nat → Slice BitcoinTxParseResult →
      Go (Slice BitcoinTxParseResult × Option BlockHeader × Option GoErr)
  | [], _, blockParsedResult => .ok (blockParsedResult, some header, none)
  | v :: rest, k, blockParsedResult =>
    if (k : Int) < txIndex then
      ParseBlockLoop d b txIndex header rest (k + 1) blockParsedResult
    else
      match parseTx d b v k with
      | .error p => .error p
      | .ok (_, some err) => .ok (none, none, some err)
      | .ok (some parseTxs, none) =>
        ParseBlockLoop d b txIndex header rest (k + 1)
          (blockParsedResult.append parseTxs)
      | .ok (none, none) =>
        ParseBlockLoop d b txIndex header rest (k + 1) blockParsedResult

/-- The method `ParseBlock`. -/
def ParseBlock (d : Deps) (b : AbelianIndexer) (height : Int) (txIndex : Int) :
    Go (Slice BitcoinTxParseResult × Option BlockHeader × Option GoErr) :=
  match GetBlockByHeight b height with
  | (_, some err) => .ok (none, none, some err)
  | (none, none) => .error Panic.nilDereference
  | (some blockResult, none) =>
    ParseBlockLoop d b txIndex blockResult.Header blockResult.Transactions 0 (some [])

/-! ## Vocabulary for the statements

The loop bodies of `parseToAddress` and `parseFromAddress`, read off the
source one element at a time; `parseToAddressLoop_cons` and
`parseFromAddressLoop_cons` below show that the loops are these bodies
iterated. -/

/-- What the body of the output loop of `parseToAddress` does with one output. -/
inductive OutputOutcome where
  /-- The script resolves: an entry is appended to `tos`. -/
  | resolved (address : String)
  /-- The error is `ErrParsePkScript` or `ErrParsePkScriptNullData`: `continue`. -/
  | skipped
  /-- Any other error: `return nil, 0, false, err`. -/
  | failed (err : GoErr)
  deriving DecidableEq, Repr

/-- The body of the output loop for the output `v`. -/
def outputOutcome (d : Deps) (b : AbelianIndexer) (v : TxOut) : OutputOutcome :=
  match parseAddress d b v.PkScript with
  | (_, some err) =>
    if err.Is .ErrParsePkScript then .skipped
    else if err.Is .ErrParsePkScriptNullData then .skipped
    else .failed err
  | (pkAddress, none) => .resolved pkAddress

/-- What the body of the input loop of `parseFromAddress` does with one input. -/
inductive InputOutcome where
  /-- The previous-output hash is the coinbase one: `return nil, nil`. -/
  | coinbase
  /-- The lookup fails: `return nil, err`. -/
  | failed (err : GoErr)
  /-- The previous transaction's output list is read out of range. -/
  | panicked (p : Panic)
  /-- The previous output is null data or unsupported: `continue`. -/
  | skipped
  /-- The previous output resolves: a sender is appended. -/
  | sender (address : String)
  deriving DecidableEq, Repr

/-- The body of the input loop for the input `vin`. -/
def inputOutcome (d : Deps) (b : AbelianIndexer) (vin : TxIn) : InputOutcome :=
  if vin.PreviousOutPoint.Hash.String = coinbaseSentinel then .coinbase
  else
    match GetRawTransaction b vin.PreviousOutPoint.Hash with
    | .error err =>
      .failed (.wrapf ("vin get raw transaction err:" ++ err.Error d.errText) err)
    | .ok vinResult =>
      if vinResult.TxOut.length = 0 then .failed (.errorf "vin txOut is null")
      else
        match vinResult.TxOut[vin.PreviousOutPoint.Index]? with
        | none =>
          .panicked (Panic.indexOutOfRange vin.PreviousOutPoint.Index
            vinResult.TxOut.length)
        | some prevOut =>
          match parseAddress d b prevOut.PkScript with
          | (_, some err) =>
            if err.Is .ErrParsePkScript || err.Is .ErrParsePkScriptNullData then .skipped
            else .failed err
          | (vinPkAddress, none) => .sender vinPkAddress

/-- The non-nil results among what `parseTx` returns for the transactions of
`txs` at positions `txIndex` and later, in block order; the positions are
counted from `first` (`0` for a whole block). -/
def emittedResults (d : Deps) (b : AbelianIndexer) (txIndex : Int) (first : Nat)
    (txs : List MsgTx) : List BitcoinTxParseResult :=
  ((txs.enumFrom first).filter (fun p => decide (txIndex ≤ (p.1 : Int)))).filterMap
    (fun p =>
      match parseTx d b p.2 p.1 with
      | .ok (some r, _) => some r
      | _ => none)

/-- The entries of `tos` that a run of the output loop over `outs` appends:
one per output whose script resolves, in output order. -/
def resolvedOutputs (d : Deps) (b : AbelianIndexer) (outs : List TxOut) : List BitcoinTo :=
  outs.filterMap (fun v =>
    match outputOutcome d b v with
    | .resolved a => some ⟨a, v.Value⟩
    | _ => none)

/-- The senders that a run of the input loop over `ins` appends: one per
input whose previous output resolves, in input order. -/
def attributedSenders (d : Deps) (b : AbelianIndexer) (ins : List TxIn) : List BitcoinFrom :=
  ins.filterMap (fun vin =>
    match inputOutcome d b vin with
    | .sender a => some ⟨a⟩
    | _ => none)

/-- The sum of the `Value` fields of the entries of `tos` whose `Address` is `dest`. -/
def sumTo (dest : String) (tos : List BitcoinTo) : Int :=
  ((tos.filter (fun t => decide (t.Address = dest))).map (fun t => t.Value)).sum

/-! ## A small chain for the examples

The two-byte script `[0x76, n]` stands for the pay-to-key-hash script of the
key hash `n`, and its address is written as a name. -/

/-- Messages of the error variables used in the examples. -/
def demoText : Sentinel → String
  | .ErrParsePkScript => "parse pkscript err"
  | .ErrParsePkScriptNullData => "parse pkscript null data err"
  | .ErrDecodeListenAddress => "decode listen address err"
  | .ErrTargetConfirmations => "target confirmation number was not reached"

/-- The hash whose first byte is `n` and whose other bytes are zero. -/
def hashOf (n : Nat) : Hash := ⟨n :: List.replicate 31 0⟩

/-- Example library, behaving as btcd does: `[0x76, n]` parses as a
pay-to-key-hash script and has an address; every other script, the empty
script, the null-data script `[0x6a]` and the bare script `[0x51]` included,
is rejected by the parser with `unsupported script type`; and every script
that parses has an address. -/
def demoDeps : Deps where
  errText := demoText
  DecodeAddress := fun s _ =>
    if s = "" then .error (.foreign "decoded address is of unknown format")
    else if s = "1CpnsCEQ3Q4d15rLkrANnfd9GtYNHJRsYy" then .error (.foreign "checksum mismatch")
    else .ok ⟨s⟩
  ParsePkScript := fun script =>
    match script with
    | [0x76, _] => .ok ⟨.PubKeyHashTy, script⟩
    | _ => .error (.foreign "unsupported script type")
  PkScriptAddress := fun pk _ =>
    match pk.script with
    | [0x76, 1] => .ok ⟨"watched"⟩
    | [0x76, 2] => .ok ⟨"alice"⟩
    | _ => .ok ⟨"bob"⟩
  NewHashFromStr := fun s =>
    if s = "01" then .ok (hashOf 1)
    else if s = "02" then .ok (hashOf 2)
    else .error (.foreign "invalid hash string")
  TxHash := fun tx => hashOf tx.LockTime

/-- A library that is not btcd: its parser accepts the bare script `[0x51]`
and then cannot render an address for it. Under btcd no script behaves so;
this library only serves to reach the last error return of `parseAddress`
(`PKScript to address err`), which the source provides for. -/
def brittleDeps : Deps :=
  { demoDeps with
    ParsePkScript := fun script =>
      match script with
      | [0x51] => .ok ⟨.WitnessV1TaprootTy, script⟩
      | _ => demoDeps.ParsePkScript script
    PkScriptAddress := fun pk params =>
      match pk.script with
      | [0x51] => .error (.foreign "unable to parse address")
      | _ => demoDeps.PkScriptAddress pk params }

/-- An input spending output `index` of the transaction with hash `h`. -/
def demoIn (h : Hash) (index : Nat) : TxIn :=
  { PreviousOutPoint := ⟨h, index⟩, SignatureScript := [], Witness := [], Sequence := 0 }

/-- An example transaction with the given inputs and outputs, identified by `id`. -/
def demoTx (id : Nat) (ins : List TxIn) (outs : List TxOut) : MsgTx :=
  { Version := 1, TxIn := ins, TxOut := outs, LockTime := id }

/-- Earlier transaction paying alice, then a null-data (`OP_RETURN`) output. -/
def prevAlice : MsgTx := demoTx 1 [] [⟨50, [0x76, 2]⟩, ⟨0, [0x6a]⟩]

/-- Earlier transaction paying bob. -/
def prevBob : MsgTx := demoTx 2 [] [⟨9, [0x76, 3]⟩]

/-- Earlier transaction whose output is the bare script `[0x51]`. -/
def prevOdd : MsgTx := demoTx 3 [] [⟨1, [0x51]⟩]

/-- A coinbase transaction paying the watched address. -/
def txCoinbase : MsgTx := demoTx 10 [demoIn zeroHash 4294967295] [⟨50, [0x76, 1]⟩]

/-- Alice pays the watched address twice, with change to herself. -/
def txDeposit : MsgTx :=
  demoTx 11 [demoIn (hashOf 1) 0] [⟨10, [0x76, 1]⟩, ⟨5, [0x76, 2]⟩, ⟨20, [0x76, 1]⟩]

/-- Bob pays himself: not a deposit. -/
def txOther : MsgTx := demoTx 12 [demoIn (hashOf 2) 0] [⟨4, [0x76, 3]⟩]

/-- Bob and alice together pay the watched address. -/
def txJoint : MsgTx :=
  demoTx 13 [demoIn (hashOf 2) 0, demoIn (hashOf 1) 0] [⟨3, [0x76, 1]⟩]

/-- A payment to the watched address whose input cannot be fetched. -/
def txLost : MsgTx := demoTx 14 [demoIn (hashOf 9) 0] [⟨1, [0x76, 1]⟩]

/-- A payment to someone else whose input cannot be fetched. -/
def txLostOther : MsgTx := demoTx 15 [demoIn (hashOf 9) 0] [⟨1, [0x76, 2]⟩]

/-- A payment to the watched address spending alice and then a coinbase. -/
def txMixed : MsgTx :=
  demoTx 16 [demoIn (hashOf 1) 0, demoIn zeroHash 0] [⟨2, [0x76, 1]⟩]

/-- A payment to the watched address spending an output of alice and then
the bare-script output of `prevOdd`. -/
def txOdd : MsgTx := demoTx 17 [demoIn (hashOf 1) 0, demoIn (hashOf 3) 0] [⟨2, [0x76, 1]⟩]

def demoHeader (n : Nat) : BlockHeader :=
  { Version := 1, PrevBlock := hashOf (n - 1), MerkleRoot := hashOf n, Timestamp := 0,
    Bits := 0, Nonce := n }

/-- Block 7: four transactions, two of them deposits. -/
def block7 : MsgBlock := ⟨demoHeader 107, [txCoinbase, txDeposit, txOther, txJoint]⟩

/-- Block 8: a deposit followed by a transaction whose input cannot be fetched. -/
def block8 : MsgBlock := ⟨demoHeader 108, [txDeposit, txLost]⟩

/-- Example chain reader. -/
def demoClient : Client where
  GetBlockHash := fun height =>
    if height = 7 then .ok (hashOf 107)
    else if height = 8 then .ok (hashOf 108)
    else .error (.foreign "Block height out of range")
  GetBlock := fun h =>
    if h = hashOf 107 then .ok block7
    else if h = hashOf 108 then .ok block8
    else .error (.foreign "Block not found")
  GetRawTransaction := fun h =>
    if h = hashOf 1 then .ok prevAlice
    else if h = hashOf 2 then .ok prevBob
    else if h = hashOf 3 then .ok prevOdd
    else .error (.foreign "No such mempool or blockchain transaction")
  GetRawTransactionVerbose := fun h =>
    if h = hashOf 1 then .ok ⟨"01", 0⟩
    else if h = hashOf 2 then .ok ⟨"02", 1⟩
    else .error (.foreign "No such mempool or blockchain transaction")
  GetBlockCount := .ok 8

/-- A chain reader that fails on every call. -/
def deadClient : Client where
  GetBlockHash := fun _ => .error (.foreign "connection refused")
  GetBlock := fun _ => .error (.foreign "connection refused")
  GetRawTransaction := fun _ => .error (.foreign "connection refused")
  GetRawTransactionVerbose := fun _ => .error (.foreign "connection refused")
  GetBlockCount := .error (.foreign "connection refused")

/-- Example indexer watching the address `watched`, one confirmation required. -/
def demoIndexer : AbelianIndexer :=
  { client := demoClient, chainParams := ⟨"mainnet"⟩, listenAddress := ⟨"watched"⟩,
    targetConfirmations := 1 }

/-- What `ParseBlock` returns for block 7 from position 0. -/
def results7 : List BitcoinTxParseResult :=
  [⟨"000000000000000000000000000000000000000000000000000000000000000b", 0, 1, 30,
      some [⟨"alice"⟩], "watched", some [⟨"watched", 10⟩, ⟨"alice", 5⟩, ⟨"watched", 20⟩]⟩,
   ⟨"000000000000000000000000000000000000000000000000000000000000000d", 0, 3, 3,
      some [⟨"bob"⟩, ⟨"alice"⟩], "watched", some [⟨"watched", 3⟩]⟩]

/-- Earlier transaction without outputs. -/
def prevEmpty : MsgTx := demoTx 4 [] []

/-- A payment to the watched address spending output 1 of a transaction that
has the single output 0. -/
def txOutOfRange : MsgTx := demoTx 18 [demoIn (hashOf 2) 1] [⟨1, [0x76, 1]⟩]

/-- A payment to the watched address spending an output of a transaction
that has no outputs. -/
def txEmptyPrev : MsgTx := demoTx 19 [demoIn (hashOf 4) 0] [⟨1, [0x76, 1]⟩]

/-- A payment to the watched address whose only input spends a null-data output. -/
def txNoSender : MsgTx := demoTx 21 [demoIn (hashOf 1) 1] [⟨6, [0x76, 1]⟩]

/-- A transaction with outputs and inputs of every skippable sort: a
null-data output, a payment to the watched address, a script that does not
parse, change to alice; inputs spending a null-data output, bob twice, alice. -/
def txNoise : MsgTx :=
  demoTx 22
    [demoIn (hashOf 1) 1, demoIn (hashOf 2) 0, demoIn (hashOf 2) 0, demoIn (hashOf 1) 0]
    [⟨0, [0x6a]⟩, ⟨10, [0x76, 1]⟩, ⟨7, []⟩, ⟨5, [0x76, 2]⟩]

/-- Block 9: a deposit followed by the transaction reading out of range. -/
def block9 : MsgBlock := ⟨demoHeader 109, [txDeposit, txOutOfRange]⟩

/-- Example chain reader that also knows `prevEmpty` and block 9. -/
def oddClient : Client :=
  { demoClient with
    GetBlockHash := fun height =>
      if height = 9 then .ok (hashOf 109) else demoClient.GetBlockHash height
    GetBlock := fun h =>
      if h = hashOf 109 then .ok block9 else demoClient.GetBlock h
    GetRawTransaction := fun h =>
      if h = hashOf 4 then .ok prevEmpty else demoClient.GetRawTransaction h }

/-- The example indexer reading through `oddClient`. -/
def oddIndexer : AbelianIndexer := { demoIndexer with client := oddClient }

/-! ## The deposit record (`model/deposit.go`) -/

/-- The named fields of the struct `Deposit`, which are also the fields of the
struct `DepositColumns`, by their Go names. -/
inductive DepositField where
  | BtcBlockNumber
  | BtcTxIndex
  | BtcTxHash
  | BtcTxType
  | BtcFroms
  | BtcFrom
  | BtcTos
  | BtcTo
  | BtcFromAAAddress
  | BtcValue
  | B2TxFrom
  | B2TxHash
  | B2TxNonce
  | B2TxStatus
  | B2TxRetry
  | BtcBlockTime
  | CallbackStatus
  | ListenerStatus
  | B2TxCheck
  deriving DecidableEq, Repr

/-- The fields in the order of their declaration. -/
def DepositField.all : List DepositField :=
  [.BtcBlockNumber, .BtcTxIndex, .BtcTxHash, .BtcTxType, .BtcFroms, .BtcFrom, .BtcTos,
   .BtcTo, .BtcFromAAAddress, .BtcValue, .B2TxFrom, .B2TxHash, .B2TxNonce, .B2TxStatus,
   .B2TxRetry, .BtcBlockTime, .CallbackStatus, .ListenerStatus, .B2TxCheck]

/-- The `json` tag of each field of the struct `Deposit`. -/
def Deposit.jsonTag : DepositField → String
  | .BtcBlockNumber => "btc_block_number"
  | .BtcTxIndex => "btc_tx_index"
  | .BtcTxHash => "btc_tx_hash"
  | .BtcTxType => "btc_tx_type"
  | .BtcFroms => "btc_froms"
  | .BtcFrom => "btc_from"
  | .BtcTos => "btc_tos"
  | .BtcTo => "btc_to"
  | .BtcFromAAAddress => "btc_from_aa_address"
  | .BtcValue => "btc_value"
  | .B2TxFrom => "b2_tx_from"
  | .B2TxHash => "b2_tx_hash"
  | .B2TxNonce => "b2_tx_nonce"
  | .B2TxStatus => "b2_tx_status"
  | .B2TxRetry => "b2_tx_retry"
  | .BtcBlockTime => "btc_block_time"
  | .CallbackStatus => "callback_status"
  | .ListenerStatus => "listener_status"
  | .B2TxCheck => "b2_tx_check"

/-- The struct `DepositColumns`. -/
structure DepositColumns where
  BtcBlockNumber : String
  BtcTxIndex : String
  BtcTxHash : String
  BtcTxType : String
  BtcFroms : String
  BtcFrom : String
  BtcTos : String
  BtcTo : String
  BtcFromAAAddress : String
  BtcValue : String
  B2TxFrom : String
  B2TxHash : String
  B2TxNonce : String
  B2TxStatus : String
  B2TxRetry : String
  BtcBlockTime : String
  CallbackStatus : String
  ListenerStatus : String
  B2TxCheck : String
  deriving DecidableEq, Repr

/-- The value a `DepositColumns` holds in the field of the given Go name. -/
def DepositColumns.field (c : DepositColumns) : DepositField → String
  | .BtcBlockNumber => c.BtcBlockNumber
  | .BtcTxIndex => c.BtcTxIndex
  | .BtcTxHash => c.BtcTxHash
  | .BtcTxType => c.BtcTxType
  | .BtcFroms => c.BtcFroms
  | .BtcFrom => c.BtcFrom
  | .BtcTos => c.BtcTos
  | .BtcTo => c.BtcTo
  | .BtcFromAAAddress => c.BtcFromAAAddress
  | .BtcValue => c.BtcValue
  | .B2TxFrom => c.B2TxFrom
  | .B2TxHash => c.B2TxHash
  | .B2TxNonce => c.B2TxNonce
  | .B2TxStatus => c.B2TxStatus
  | .B2TxRetry => c.B2TxRetry
  | .BtcBlockTime => c.BtcBlockTime
  | .CallbackStatus => c.CallbackStatus
  | .ListenerStatus => c.ListenerStatus
  | .B2TxCheck => c.B2TxCheck

/-- The method `Deposit.TableName`. -/
def Deposit.TableName : String := "deposit_history"

/-- The method `Deposit.Column`. -/
def Deposit.Column : DepositColumns :=
  { BtcBlockNumber := "btc_block_number"
    BtcTxIndex := "btc_tx_index"
    BtcTxHash := "btc_tx_hash"
    BtcTxType := "btc_tx_type"
    BtcFroms := "btc_froms"
    BtcFrom := "btc_from"
    BtcTos := "btc_tos"
    BtcTo := "btc_to"
    BtcFromAAAddress := "btc_from_aa_address"
    BtcValue := "btc_value"
    B2TxFrom := "b2_tx_from"
    B2TxHash := "b2_tx_hash"
    B2TxNonce := "b2_tx_nonce"
    B2TxStatus := "b2_tx_status"
    BtcBlockTime := "btc_block_time"
    B2TxRetry := "b2_tx_retry"
    CallbackStatus := "callback_status"
    ListenerStatus := "listener_status"
    B2TxCheck := "b2_tx_check" }

/-- The column names of `Deposit.Column`, field by field. -/
def Deposit.columnNames : List String :=
  DepositField.all.map Deposit.Column.field

/-! ## Lemmas on the loops -/

theorem parseToAddressLoop_cons (d : Deps) (b : AbelianIndexer) (v : TxOut)
    (rest : List TxOut) (tos : Slice BitcoinTo) (total : Int) (has : Bool) :
    parseToAddressLoop d b (v :: rest) tos total has =
      match outputOutcome d b v with
      | .resolved a =>
        if a = b.listenAddress.EncodeAddress then
          parseToAddressLoop d b rest (tos.append ⟨a, v.Value⟩)
            (wrapInt64 (total + v.Value)) true
        else
          parseToAddressLoop d b rest (tos.append ⟨a, v.Value⟩) total has
      | .skipped => parseToAddressLoop d b rest tos total has
      | .failed err => (none, 0, false, some err) := by
  rw [parseToAddressLoop, outputOutcome]
  rcases h : parseAddress d b v.PkScript with ⟨a, _ | err⟩
  · simp
  · by_cases h1 : err.Is .ErrParsePkScript = true
    · simp [h1]
    · by_cases h2 : err.Is .ErrParsePkScriptNullData = true
      · simp [h1, h2]
      · simp [h1, h2]

theorem parseFromAddressLoop_cons (d : Deps) (b : AbelianIndexer) (vin : TxIn)
    (rest : List TxIn) (acc : Slice BitcoinFrom) :
    parseFromAddressLoop d b (vin :: rest) acc =
      match inputOutcome d b vin with
      | .coinbase => .ok (none, none)
      | .failed err => .ok (none, some err)
      | .panicked p => .error p
      | .skipped => parseFromAddressLoop d b rest acc
      | .sender a => parseFromAddressLoop d b rest (acc.append ⟨a⟩) := by
  rw [parseFromAddressLoop, inputOutcome]
  by_cases hc : vin.PreviousOutPoint.Hash.String = coinbaseSentinel
  · simp [hc]
  · simp only [hc, if_false]
    rcases hg : GetRawTransaction b vin.PreviousOutPoint.Hash with err | vinResult
    · simp
    · simp only
      by_cases hl : vinResult.TxOut.length = 0
      · simp [hl]
      · simp only [hl, if_false]
        rcases ho : vinResult.TxOut[vin.PreviousOutPoint.Index]? with _ | prevOut
        · simp
        · simp only
          rcases hp : parseAddress d b prevOut.PkScript with ⟨a, _ | err⟩
          · simp
          · simp only
            by_cases hs : (err.Is .ErrParsePkScript || err.Is .ErrParsePkScriptNullData) = true
            · simp [hs]
            · simp [hs]

/-- What an emitted result is made of. -/
theorem parseTx_some (d : Deps) (b : AbelianIndexer) (tx : MsgTx) (k : Nat)
    (r : BitcoinTxParseResult) (e : Option GoErr)
    (h : parseTx d b tx k = .ok (some r, e)) :
    e = none ∧ ∃ tos total oe froms,
      parseToAddress d b tx.TxOut = (tos, total, true, oe) ∧
      parseFromAddress d b tx.TxIn = .ok (froms, none) ∧
      froms.len ≠ 0 ∧
      r = { TxID := (d.TxHash tx).String, TxType := TxTypeTransfer, Index := (k : Int),
            Value := total, From := froms, To := b.listenAddress.EncodeAddress,
            Tos := tos } := by
  unfold parseTx at h
  rcases hto : parseToAddress d b tx.TxOut with ⟨tos, total, has, oe⟩
  rw [hto] at h
  cases has with
  | false => simp at h
  | true =>
    simp only [if_true] at h
    rcases hfrom : parseFromAddress d b tx.TxIn with p | ⟨froms, _ | err⟩
    · rw [hfrom] at h; simp at h
    · rw [hfrom] at h
      by_cases hl : froms.len = 0
      · simp [hl] at h
      · simp only [hl, if_false, Except.ok.injEq, Prod.mk.injEq, Option.some.injEq] at h
        exact ⟨h.2.symm, tos, total, oe, froms, rfl, rfl, hl, h.1.symm⟩
    · rw [hfrom] at h; simp at h

theorem parseTx_index (d : Deps) (b : AbelianIndexer) (tx : MsgTx) (k : Nat)
    (r : BitcoinTxParseResult) (e : Option GoErr)
    (h : parseTx d b tx k = .ok (some r, e)) : r.Index = (k : Int) := by
  obtain ⟨_, _, _, _, _, _, _, _, hr⟩ := parseTx_some d b tx k r e h
  rw [hr]

/-- An error of `parseTx` comes with a nil result. -/
theorem parseTx_err (d : Deps) (b : AbelianIndexer) (tx : MsgTx) (k : Nat)
    (r : Option BitcoinTxParseResult) (e : GoErr)
    (h : parseTx d b tx k = .ok (r, some e)) : r = none := by
  cases r with
  | none => rfl
  | some r => have := (parseTx_some d b tx k r _ h).1; simp at this

theorem ParseBlockLoop_cons (d : Deps) (b : AbelianIndexer) (txIndex : Int)
    (header : BlockHeader) (v : MsgTx) (rest : List MsgTx) (k : Nat)
    (acc : Slice BitcoinTxParseResult) :
    ParseBlockLoop d b txIndex header (v :: rest) k acc =
      if (k : Int) < txIndex then ParseBlockLoop d b txIndex header rest (k + 1) acc
      else
        match parseTx d b v k with
        | .error p => .error p
        | .ok (_, some err) => .ok (none, none, some err)
        | .ok (some r, none) => ParseBlockLoop d b txIndex header rest (k + 1) (acc.append r)
        | .ok (none, none) => ParseBlockLoop d b txIndex header rest (k + 1) acc := by
  rw [ParseBlockLoop]

/-- An error of the block loop comes with a nil list and a nil header. -/
theorem ParseBlockLoop_err (d : Deps) (b : AbelianIndexer) (txIndex : Int)
    (header : BlockHeader) (txs : List MsgTx) :
    ∀ (k : Nat) (acc l : Slice BitcoinTxParseResult) (h : Option BlockHeader) (e : GoErr),
      ParseBlockLoop d b txIndex header txs k acc = .ok (l, h, some e) →
      l = none ∧ h = none := by
  induction txs with
  | nil => intro k acc l h e hl; simp [ParseBlockLoop] at hl
  | cons v rest ih =>
    intro k acc l h e hl
    rw [ParseBlockLoop_cons] at hl
    by_cases hk : (k : Int) < txIndex
    · simp only [hk, if_true] at hl
      exact ih _ _ _ _ _ hl
    · simp only [hk, if_false] at hl
      rcases hp : parseTx d b v k with p | ⟨_ | r, _ | err⟩
      · rw [hp] at hl; simp at hl
      · rw [hp] at hl; exact ih _ _ _ _ _ hl
      · rw [hp] at hl
        simp only [Except.ok.injEq, Prod.mk.injEq] at hl
        exact ⟨hl.1.symm, hl.2.1.symm⟩
      · rw [hp] at hl; exact ih _ _ _ _ _ hl
      · rw [hp] at hl
        simp only [Except.ok.injEq, Prod.mk.injEq] at hl
        exact ⟨hl.1.symm, hl.2.1.symm⟩

/-- The block loop stops at the first transaction, at or after `txIndex`, for
which `parseTx` returns an error. -/
theorem ParseBlockLoop_first_error (d : Deps) (b : AbelianIndexer) (txIndex : Int)
    (header : BlockHeader) (txs : List MsgTx) :
    ∀ (k i : Nat) (acc : Slice BitcoinTxParseResult) (tx : MsgTx)
      (r : Option BitcoinTxParseResult) (e : GoErr),
      txs[i]? = some tx → txIndex ≤ ((k + i : Nat) : Int) →
      parseTx d b tx (k + i) = .ok (r, some e) →
      (∀ j tx', j < i → txIndex ≤ ((k + j : Nat) : Int) → txs[j]? = some tx' →
        ∃ r', parseTx d b tx' (k + j) = .ok (r', none)) →
      ParseBlockLoop d b txIndex header txs k acc = .ok (none, none, some e) := by
  induction txs with
  | nil => intro k i acc tx r e hi; simp at hi
  | cons v rest ih =>
    intro k i acc tx r e hi hle hp hprev
    rw [ParseBlockLoop_cons]
    cases i with
    | zero =>
      simp only [List.getElem?_cons_zero, Option.some.injEq] at hi
      subst hi
      have hk : ¬ ((k : Int) < txIndex) := by simpa using hle
      simp only [hk, if_false]
      simp only [Nat.add_zero] at hp
      rw [hp]
      cases r <;> rfl
    | succ i =>
      simp only [List.getElem?_cons_succ] at hi
      have hstep : ∀ acc', ParseBlockLoop d b txIndex header rest (k + 1) acc' =
          .ok (none, none, some e) := by
        intro acc'
        refine ih (k + 1) i acc' tx r e hi ?_ ?_ ?_
        · have : k + 1 + i = k + (i + 1) := by omega
          rw [this]; exact hle
        · have : k + 1 + i = k + (i + 1) := by omega
          rw [this]; exact hp
        · intro j tx' hj hjle hjt
          have h1 := hprev (j + 1) tx' (by omega)
            (by have : k + (j + 1) = k + 1 + j := by omega
                rw [this]; exact hjle)
            (by simpa using hjt)
          have : k + (j + 1) = k + 1 + j := by omega
          rw [this] at h1; exact h1
      by_cases hk : (k : Int) < txIndex
      · simp only [hk, if_true]; exact hstep _
      · simp only [hk, if_false]
        obtain ⟨r', hr'⟩ := hprev 0 v (by omega) (by simpa using hk) (by simp)
        simp only [Nat.add_zero] at hr'
        rw [hr']
        cases r' with
        | none => exact hstep _
        | some r0 => exact hstep _

theorem emittedResults_cons (d : Deps) (b : AbelianIndexer) (txIndex : Int) (k : Nat)
    (v : MsgTx) (rest : List MsgTx) :
    emittedResults d b txIndex k (v :: rest) =
      (if (k : Int) < txIndex then []
       else match parseTx d b v k with
         | .ok (some r, _) => [r]
         | _ => []) ++ emittedResults d b txIndex (k + 1) rest := by
  unfold emittedResults
  by_cases hk : (k : Int) < txIndex
  · have hk' : ¬ (txIndex ≤ (k : Int)) := by omega
    simp [List.enumFrom_cons, List.filter_cons, hk, hk']
  · have hk' : txIndex ≤ (k : Int) := by omega
    simp only [List.enumFrom_cons, List.filter_cons, hk', decide_True, if_true,
      List.filterMap_cons, hk, if_false]
    rcases hp : parseTx d b v k with p | ⟨_ | r, e⟩ <;> simp

theorem mem_emittedResults (d : Deps) (b : AbelianIndexer) (txIndex : Int)
    (txs : List MsgTx) :
    ∀ (k : Nat) (r : BitcoinTxParseResult),
      r ∈ emittedResults d b txIndex k txs ↔
        ∃ j tx, txs[j]? = some tx ∧ txIndex ≤ ((k + j : Nat) : Int) ∧
          parseTx d b tx (k + j) = .ok (some r, none) := by
  induction txs with
  | nil => intro k r; simp [emittedResults]
  | cons v rest ih =>
    intro k r
    rw [emittedResults_cons, List.mem_append, ih]
    constructor
    · rintro (h | ⟨j, tx, hj, hle, hp⟩)
      · by_cases hk : (k : Int) < txIndex
        · simp [hk] at h
        · simp only [hk, if_false] at h
          rcases hp : parseTx d b v k with p | ⟨_ | r0, e⟩
          · rw [hp] at h; simp at h
          · rw [hp] at h; simp at h
          · rw [hp] at h
            simp only [List.mem_singleton] at h
            subst h
            have he := (parseTx_some d b v k r e hp).1
            subst he
            exact ⟨0, v, by simp, by simpa using hk, by simpa using hp⟩
      · refine ⟨j + 1, tx, by simpa using hj, ?_, ?_⟩
        · have : k + (j + 1) = k + 1 + j := by omega
          rw [this]; exact hle
        · have : k + (j + 1) = k + 1 + j := by omega
          rw [this]; exact hp
    · rintro ⟨j, tx, hj, hle, hp⟩
      cases j with
      | zero =>
        left
        simp only [List.getElem?_cons_zero, Option.some.injEq] at hj
        subst hj
        have hk : ¬ ((k : Int) < txIndex) := by simpa using hle
        simp only [Nat.add_zero] at hp
        simp [hk, hp]
      | succ j =>
        right
        refine ⟨j, tx, by simpa using hj, ?_, ?_⟩
        · have : k + 1 + j = k + (j + 1) := by omega
          rw [this]; exact hle
        · have : k + 1 + j = k + (j + 1) := by omega
          rw [this]; exact hp

/-- The emitted results carry strictly ascending positions. -/
theorem emittedResults_pairwise (d : Deps) (b : AbelianIndexer) (txIndex : Int)
    (txs : List MsgTx) :
    ∀ (k : Nat), (emittedResults d b txIndex k txs).Pairwise
      (fun r s => r.Index < s.Index) := by
  induction txs with
  | nil => intro k; simp [emittedResults]
  | cons v rest ih =>
    intro k
    rw [emittedResults_cons, List.pairwise_append]
    refine ⟨?_, ih (k + 1), ?_⟩
    · by_cases hk : (k : Int) < txIndex
      · simp [hk]
      · simp only [hk, if_false]
        rcases hp : parseTx d b v k with p | ⟨_ | r0, e⟩ <;> simp
    · intro r hr s hs
      obtain ⟨j, tx, _, _, hp⟩ := (mem_emittedResults d b txIndex rest (k + 1) s).1 hs
      have hsi := parseTx_index d b tx _ s _ hp
      by_cases hk : (k : Int) < txIndex
      · simp [hk] at hr
      · simp only [hk, if_false] at hr
        rcases hp0 : parseTx d b v k with p | ⟨_ | r0, e⟩
        · rw [hp0] at hr; simp at hr
        · rw [hp0] at hr; simp at hr
        · rw [hp0] at hr
          simp only [List.mem_singleton] at hr
          subst hr
          have hri := parseTx_index d b v k r e hp0
          rw [hri, hsi]
          push_cast
          omega

/-- A successful run of the block loop returns the results so far followed
by the emitted results of the remaining transactions, and the header. -/
theorem ParseBlockLoop_ok (d : Deps) (b : AbelianIndexer) (txIndex : Int)
    (header : BlockHeader) (txs : List MsgTx) :
    ∀ (k : Nat) (A : List BitcoinTxParseResult) (l : Slice BitcoinTxParseResult)
      (h : Option BlockHeader),
      ParseBlockLoop d b txIndex header txs k (some A) = .ok (l, h, none) →
      l = some (A ++ emittedResults d b txIndex k txs) ∧ h = some header := by
  induction txs with
  | nil =>
    intro k A l h hl
    simp only [ParseBlockLoop, Except.ok.injEq, Prod.mk.injEq] at hl
    simp [emittedResults, hl.1.symm, hl.2.1.symm]
  | cons v rest ih =>
    intro k A l h hl
    rw [ParseBlockLoop_cons] at hl
    rw [emittedResults_cons]
    by_cases hk : (k : Int) < txIndex
    · simp only [hk, if_true] at hl ⊢
      simpa using ih _ _ _ _ hl
    · simp only [hk, if_false] at hl ⊢
      rcases hp : parseTx d b v k with p | ⟨_ | r, _ | err⟩
      · rw [hp] at hl; simp at hl
      · rw [hp] at hl; simpa using ih _ _ _ _ hl
      · rw [hp] at hl; simp at hl
      · rw [hp] at hl
        simpa [Slice.append] using ih _ _ _ _ hl
      · rw [hp] at hl; simp at hl

/-- The block loop succeeds when every transaction it parses returns
without error. -/
theorem ParseBlockLoop_complete (d : Deps) (b : AbelianIndexer) (txIndex : Int)
    (header : BlockHeader) (txs : List MsgTx) :
    ∀ (k : Nat) (A : List BitcoinTxParseResult),
      (∀ (j : Nat) (tx : MsgTx), txs[j]? = some tx → txIndex ≤ ((k + j : Nat) : Int) →
        ∃ r, parseTx d b tx (k + j) = .ok (r, none)) →
      ParseBlockLoop d b txIndex header txs k (some A) =
        .ok (some (A ++ emittedResults d b txIndex k txs), some header, none) := by
  induction txs with
  | nil => intro k A _; simp [ParseBlockLoop, emittedResults]
  | cons v rest ih =>
    intro k A hall
    have hrest : ∀ (j : Nat) (tx : MsgTx), rest[j]? = some tx →
        txIndex ≤ ((k + 1 + j : Nat) : Int) →
        ∃ r, parseTx d b tx (k + 1 + j) = .ok (r, none) := by
      intro j tx hj hle
      have h1 := hall (j + 1) tx (by simpa using hj)
        (by have : k + (j + 1) = k + 1 + j := by omega
            rw [this]; exact hle)
      have : k + (j + 1) = k + 1 + j := by omega
      rw [this] at h1; exact h1
    rw [ParseBlockLoop_cons, emittedResults_cons]
    by_cases hk : (k : Int) < txIndex
    · simp only [hk, if_true, List.nil_append]
      exact ih _ _ hrest
    · simp only [hk, if_false]
      obtain ⟨r, hr⟩ := hall 0 v (by simp) (by simpa using hk)
      simp only [Nat.add_zero] at hr
      rw [hr]
      cases r with
      | none => simpa using ih _ _ hrest
      | some r0 => simpa [Slice.append] using ih (k + 1) (A ++ [r0]) hrest

/-- Resuming the block loop at `i`: when the loop from position 0 succeeds,
so does the loop from `i`, with the results whose `Index` is at least `i`. -/
theorem ParseBlockLoop_resume (d : Deps) (b : AbelianIndexer) (i : Int)
    (header : BlockHeader) (txs : List MsgTx) :
    ∀ (k : Nat) (A : List BitcoinTxParseResult) (l : Slice BitcoinTxParseResult)
      (h : Option BlockHeader),
      ParseBlockLoop d b 0 header txs k (some A) = .ok (l, h, none) →
      ∃ R, l = some (A ++ R) ∧ h = some header ∧
        ∀ A2, ParseBlockLoop d b i header txs k (some A2) =
          .ok (some (A2 ++ R.filter (fun r => decide (i ≤ r.Index))), some header, none) := by
  induction txs with
  | nil =>
    intro k A l h hl
    simp only [ParseBlockLoop, Except.ok.injEq, Prod.mk.injEq] at hl
    exact ⟨[], by simp [hl.1.symm], hl.2.1.symm, fun A2 => by simp [ParseBlockLoop]⟩
  | cons v rest ih =>
    intro k A l h hl
    rw [ParseBlockLoop_cons] at hl
    have hk0 : ¬ ((k : Int) < 0) := by omega
    simp only [hk0, if_false] at hl
    rcases hp : parseTx d b v k with p | ⟨_ | r, _ | err⟩
    · rw [hp] at hl; simp at hl
    · rw [hp] at hl
      obtain ⟨R, hR, hh, hres⟩ := ih _ _ _ _ hl
      refine ⟨R, hR, hh, fun A2 => ?_⟩
      rw [ParseBlockLoop_cons, hp]
      by_cases hk : (k : Int) < i
      · simp only [hk, if_true]; exact hres A2
      · simp only [hk, if_false]; exact hres A2
    · rw [hp] at hl; simp at hl
    · rw [hp] at hl
      obtain ⟨R, hR, hh, hres⟩ := ih _ _ _ _ hl
      have hri := parseTx_index d b v k r _ hp
      refine ⟨r :: R, by simpa [Slice.append] using hR, hh, fun A2 => ?_⟩
      rw [ParseBlockLoop_cons, hp]
      by_cases hk : (k : Int) < i
      · have hdrop : ¬ (i ≤ r.Index) := by rw [hri]; omega
        simp only [hk, if_true, List.filter_cons, hdrop, decide_False]
        simpa using hres A2
      · have hkeep : i ≤ r.Index := by rw [hri]; omega
        simp only [hk, if_false, List.filter_cons, hkeep, decide_True, if_true]
        simpa [Slice.append] using hres (A2 ++ [r])
    · rw [hp] at hl; simp at hl

/-- Starting at or beyond the last position, the block loop parses nothing. -/
theorem ParseBlockLoop_beyond (d : Deps) (b : AbelianIndexer) (i : Int)
    (header : BlockHeader) (txs : List MsgTx) :
    ∀ (k : Nat) (acc : Slice BitcoinTxParseResult),
      ((k + txs.length : Nat) : Int) ≤ i →
      ParseBlockLoop d b i header txs k acc = .ok (acc, some header, none) := by
  induction txs with
  | nil => intro k acc _; simp [ParseBlockLoop]
  | cons v rest ih =>
    intro k acc hle
    rw [ParseBlockLoop_cons]
    simp only [List.length_cons] at hle
    have hk : (k : Int) < i := by omega
    simp only [hk, if_true]
    exact ih _ _ (by have : k + 1 + rest.length = k + (rest.length + 1) := by omega
                     rw [this]; exact hle)

theorem GetBlockByHeight_cases (b : AbelianIndexer) (height : Int) :
    (∃ e, GetBlockByHeight b height = (none, some e)) ∨
    (∃ blk, GetBlockByHeight b height = (some blk, none)) := by
  unfold GetBlockByHeight
  rcases b.client.GetBlockHash height with e | bh
  · exact Or.inl ⟨e, rfl⟩
  · rcases hb : b.client.GetBlock bh with e | blk
    · exact Or.inl ⟨e, by simp [hb]⟩
    · exact Or.inr ⟨blk, by simp [hb]⟩

theorem ParseBlock_of_block (d : Deps) (b : AbelianIndexer) (height txIndex : Int)
    (blk : MsgBlock) (hb : GetBlockByHeight b height = (some blk, none)) :
    ParseBlock d b height txIndex =
      ParseBlockLoop d b txIndex blk.Header blk.Transactions 0 (some []) := by
  unfold ParseBlock
  rw [hb]

theorem ParseBlock_of_fetch_error (d : Deps) (b : AbelianIndexer) (height txIndex : Int)
    (e : GoErr) (hb : (GetBlockByHeight b height).2 = some e) :
    ParseBlock d b height txIndex = .ok (none, none, some e) := by
  unfold ParseBlock
  rcases hg : GetBlockByHeight b height with ⟨blk, oe⟩
  rw [hg] at hb
  simp only at hb
  subst hb
  cases blk <;> rfl

/-! ## The block parser: `ParseBlock` -/

/-- C1. `ParseBlock` is all-or-nothing on error. If fetching the block fails
with `e`, it returns a nil list, a nil header and `e`. If `parseTx` returns
an error `e` for the transaction at a position `k ≥ txIndex`, and the parsed
transactions before it returned without error, it returns a nil list, a nil
header and `e`; whatever the earlier transactions returned, short of a
panic, it returns a nil list, a nil header and an error. And every error
`ParseBlock` returns comes with a nil list and a nil header: results
collected from earlier transactions are never returned with it. -/
theorem ParseBlock_all_or_nothing (d : Deps) (b : AbelianIndexer) (height txIndex : Int) :
    (∀ e, (GetBlockByHeight b height).2 = some e →
      ParseBlock d b height txIndex = .ok (none, none, some e)) ∧
    (∀ (blk : MsgBlock) (k : Nat) tx r e, GetBlockByHeight b height = (some blk, none) →
      blk.Transactions[k]? = some tx → txIndex ≤ (k : Int) →
      parseTx d b tx k = .ok (r, some e) →
      (∀ (j : Nat) tx', j < k → txIndex ≤ (j : Int) → blk.Transactions[j]? = some tx' →
        ∃ r', parseTx d b tx' j = .ok (r', none)) →
      r = none ∧ ParseBlock d b height txIndex = .ok (none, none, some e)) ∧
    (∀ (blk : MsgBlock) (k : Nat) tx r e, GetBlockByHeight b height = (some blk, none) →
      blk.Transactions[k]? = some tx → txIndex ≤ (k : Int) →
      parseTx d b tx k = .ok (r, some e) →
      (∀ (j : Nat) tx', j < k → txIndex ≤ (j : Int) → blk.Transactions[j]? = some tx' →
        ∃ out, parseTx d b tx' j = .ok out) →
      ∃ e', ParseBlock d b height txIndex = .ok (none, none, some e')) ∧
    (∀ l h e, ParseBlock d b height txIndex = .ok (l, h, some e) → l = none ∧ h = none) := by
  have first : ∀ (blk : MsgBlock) (k : Nat) tx r e, GetBlockByHeight b height = (some blk, none) →
      blk.Transactions[k]? = some tx → txIndex ≤ (k : Int) →
      parseTx d b tx k = .ok (r, some e) →
      (∀ (j : Nat) tx', j < k → txIndex ≤ (j : Int) → blk.Transactions[j]? = some tx' →
        ∃ r', parseTx d b tx' j = .ok (r', none)) →
      ParseBlock d b height txIndex = .ok (none, none, some e) := by
    intro blk k tx r e hb hk hle hp hprev
    rw [ParseBlock_of_block d b height txIndex blk hb]
    refine ParseBlockLoop_first_error d b txIndex blk.Header blk.Transactions 0 k _ tx r e
      hk (by simpa using hle) (by simpa using hp) ?_
    intro j tx' hj hjle hjt
    simpa using hprev j tx' hj (by simpa using hjle) hjt
  refine ⟨fun e he => ParseBlock_of_fetch_error d b height txIndex e he, ?_, ?_, ?_⟩
  · intro blk k tx r e hb hk hle hp hprev
    exact ⟨parseTx_err d b tx k r e hp, first blk k tx r e hb hk hle hp hprev⟩
  · intro blk k
    induction k using Nat.strong_induction_on with
    | _ k ih =>
      intro tx r e hb hk hle hp hret
      by_cases hall : ∀ (j : Nat) tx', j < k → txIndex ≤ (j : Int) →
          blk.Transactions[j]? = some tx' → ∃ r', parseTx d b tx' j = .ok (r', none)
      · exact ⟨e, first blk k tx r e hb hk hle hp hall⟩
      · push_neg at hall
        obtain ⟨j, tx', hj, hjle, hjt, hne⟩ := hall
        obtain ⟨⟨r', oe⟩, hout⟩ := hret j tx' hj hjle hjt
        cases oe with
        | none => exact absurd hout (hne r')
        | some e' =>
          exact ih j hj tx' r' e' hb hjt hjle hout
            (fun j2 tx2 hj2 hle2 ht2 => hret j2 tx2 (by omega) hle2 ht2)
  · intro l h e hpb
    rcases GetBlockByHeight_cases b height with ⟨e0, hb⟩ | ⟨blk, hb⟩
    · rw [ParseBlock_of_fetch_error d b height txIndex e0 (by rw [hb])] at hpb
      simp only [Except.ok.injEq, Prod.mk.injEq] at hpb
      exact ⟨hpb.1.symm, hpb.2.1.symm⟩
    · rw [ParseBlock_of_block d b height txIndex blk hb] at hpb
      exact ParseBlockLoop_err d b txIndex blk.Header blk.Transactions 0 _ l h e hpb

/-- C1, on the example chain: block 8 holds a deposit followed by a
transaction whose input cannot be fetched, and no block has height 9. -/
theorem ParseBlock_all_or_nothing_witness :
    (∃ r, parseTx demoDeps demoIndexer txDeposit 0 = .ok (some r, none)) ∧
    ParseBlock demoDeps demoIndexer 8 0 = .ok (none, none, some
      (.wrapf "vin parse err:vin get raw transaction err:No such mempool or blockchain transaction"
        (.wrapf "vin get raw transaction err:No such mempool or blockchain transaction"
          (.foreign "No such mempool or blockchain transaction")))) ∧
    ParseBlock demoDeps demoIndexer 9 0 =
      .ok (none, none, some (.foreign "Block height out of range")) :=
  ⟨⟨_, rfl⟩,
   ((ParseBlock_all_or_nothing demoDeps demoIndexer 8 0).2.1 block8 1 txLost none _ rfl rfl
      (by decide) rfl
      (fun j tx' hj _ hjt => by
        have hj0 : j = 0 := by omega
        subst hj0
        simp only [block8, List.getElem?_cons_zero, Option.some.injEq] at hjt
        subst hjt
        exact ⟨_, rfl⟩)).2,
   (ParseBlock_all_or_nothing demoDeps demoIndexer 9 0).1 _ rfl⟩

/-- C2. When `ParseBlock` succeeds (returns with a nil error), the block was
fetched, the returned list is non-nil and is exactly the list of the non-nil
`parseTx` results of the block's transactions at positions `k ≥ txIndex`, in
block order: a result is in the list exactly when `parseTx` emits it for the
transaction at such a position `k`, and it then carries `Index = k`; the
`Index` values are strictly ascending along the list and all at least
`txIndex`; and the returned header is the block's header. `ParseBlock` does
succeed, with that list, whenever the block is fetched and `parseTx` returns
without error for every transaction at a position `k ≥ txIndex`; when none
of them yields a result, it returns the empty non-nil list and a nil error. -/
theorem ParseBlock_results (d : Deps) (b : AbelianIndexer) (height txIndex : Int) :
    (∀ (l : Slice BitcoinTxParseResult) (h : Option BlockHeader),
      ParseBlock d b height txIndex = .ok (l, h, none) →
      ∃ blk L, GetBlockByHeight b height = (some blk, none) ∧
        l = some L ∧ h = some blk.Header ∧
        L = emittedResults d b txIndex 0 blk.Transactions ∧
        (∀ r, r ∈ L ↔ ∃ (k : Nat) (tx : MsgTx), blk.Transactions[k]? = some tx ∧
          txIndex ≤ (k : Int) ∧ parseTx d b tx k = .ok (some r, none) ∧
          r.Index = (k : Int)) ∧
        L.Pairwise (fun r s => r.Index < s.Index) ∧
        (∀ r ∈ L, txIndex ≤ r.Index)) ∧
    (∀ blk, GetBlockByHeight b height = (some blk, none) →
      (∀ (k : Nat) (tx : MsgTx), blk.Transactions[k]? = some tx → txIndex ≤ (k : Int) →
        ∃ r, parseTx d b tx k = .ok (r, none)) →
      ParseBlock d b height txIndex =
        .ok (some (emittedResults d b txIndex 0 blk.Transactions), some blk.Header, none)) ∧
    (∀ blk, GetBlockByHeight b height = (some blk, none) →
      (∀ (k : Nat) (tx : MsgTx), blk.Transactions[k]? = some tx → txIndex ≤ (k : Int) →
        parseTx d b tx k = .ok (none, none)) →
      ParseBlock d b height txIndex = .ok (some [], some blk.Header, none)) := by
  have hmem : ∀ (blk : MsgBlock) r, r ∈ emittedResults d b txIndex 0 blk.Transactions ↔
      ∃ (k : Nat) (tx : MsgTx), blk.Transactions[k]? = some tx ∧
        txIndex ≤ (k : Int) ∧ parseTx d b tx k = .ok (some r, none) ∧ r.Index = (k : Int) := by
    intro blk r
    rw [mem_emittedResults]
    constructor
    · rintro ⟨j, tx, hj, hle, hp⟩
      simp only [Nat.zero_add] at hle hp
      exact ⟨j, tx, hj, hle, hp, parseTx_index d b tx j r _ hp⟩
    · rintro ⟨k, tx, hk, hle, hp, _⟩
      exact ⟨k, tx, hk, by simpa using hle, by simpa using hp⟩
  have hcomplete : ∀ blk, GetBlockByHeight b height = (some blk, none) →
      (∀ (k : Nat) (tx : MsgTx), blk.Transactions[k]? = some tx → txIndex ≤ (k : Int) →
        ∃ r, parseTx d b tx k = .ok (r, none)) →
      ParseBlock d b height txIndex =
        .ok (some (emittedResults d b txIndex 0 blk.Transactions), some blk.Header, none) := by
    intro blk hb hall
    rw [ParseBlock_of_block d b height txIndex blk hb]
    have := ParseBlockLoop_complete d b txIndex blk.Header blk.Transactions 0 []
      (fun j tx hj hle => by simpa using hall j tx hj (by simpa using hle))
    simpa using this
  refine ⟨?_, hcomplete, ?_⟩
  · intro l h hok
    rcases GetBlockByHeight_cases b height with ⟨e0, hb⟩ | ⟨blk, hb⟩
    · rw [ParseBlock_of_fetch_error d b height txIndex e0 (by rw [hb])] at hok
      simp at hok
    · rw [ParseBlock_of_block d b height txIndex blk hb] at hok
      obtain ⟨hl, hh⟩ := ParseBlockLoop_ok d b txIndex blk.Header blk.Transactions 0 [] l h hok
      simp only [List.nil_append] at hl
      refine ⟨blk, _, hb, hl, hh, rfl, hmem blk, emittedResults_pairwise d b txIndex _ 0, ?_⟩
      intro r hr
      obtain ⟨k, tx, _, hle, _, hi⟩ := (hmem blk r).1 hr
      rw [hi]; exact hle
  · intro blk hb hnone
    rw [hcomplete blk hb (fun k tx hk hle => ⟨none, hnone k tx hk hle⟩)]
    have hnil : emittedResults d b txIndex 0 blk.Transactions = [] := by
      apply List.eq_nil_iff_forall_not_mem.2
      intro r hr
      obtain ⟨k, tx, hk, hle, hp, _⟩ := (hmem blk r).1 hr
      rw [hnone k tx hk hle] at hp
      simp at hp
    rw [hnil]

/-- C2, on the example chain: block 7 from position 0 gives the deposits at
positions 1 and 3, in that order, with the header of block 7; from position
4 nothing is parsed and the list is empty. -/
theorem ParseBlock_results_witness :
    ParseBlock demoDeps demoIndexer 7 0 = .ok (some results7, some (demoHeader 107), none) ∧
    (∃ (blk : MsgBlock) (L : List BitcoinTxParseResult),
      GetBlockByHeight demoIndexer 7 = (some blk, none) ∧
      some results7 = some L ∧ some (demoHeader 107) = some blk.Header ∧
      L = emittedResults demoDeps demoIndexer 0 0 blk.Transactions ∧
      L.Pairwise (fun r s => r.Index < s.Index) ∧ (∀ r ∈ L, (0 : Int) ≤ r.Index)) ∧
    ParseBlock demoDeps demoIndexer 7 4 = .ok (some [], some block7.Header, none) := by
  refine ⟨rfl, ?_, ?_⟩
  · obtain ⟨blk, L, h1, h2, h3, h4, _, h6, h7⟩ :=
      (ParseBlock_results demoDeps demoIndexer 7 0).1 (some results7) (some (demoHeader 107)) rfl
    exact ⟨blk, L, h1, h2, h3, h4, h6, h7⟩
  · refine (ParseBlock_results demoDeps demoIndexer 7 4).2.2 block7 rfl ?_
    intro k tx hk hle
    have hlt : k < block7.Transactions.length := by
      by_contra hge
      rw [List.getElem?_eq_none (by omega)] at hk
      simp at hk
    simp only [block7, List.length_cons, List.length_nil] at hlt
    omega

/-- C8. Mid-block resume loses nothing: when `ParseBlock` from position 0
succeeds with the list `L`, then for every `i` (non-negative or not)
`ParseBlock` from position `i` succeeds on the same chain state with the same
header and returns exactly the elements of `L` whose `Index` is at least `i`,
in the same order; for `i` at or beyond the number of transactions of the
block this is the empty list. -/
theorem ParseBlock_resume (d : Deps) (b : AbelianIndexer) (height i : Int)
    (l : Slice BitcoinTxParseResult) (h : Option BlockHeader)
    (hok : ParseBlock d b height 0 = .ok (l, h, none)) :
    ∃ blk L, GetBlockByHeight b height = (some blk, none) ∧ l = some L ∧
      ParseBlock d b height i =
        .ok (some (L.filter (fun r => decide (i ≤ r.Index))), h, none) ∧
      ((blk.Transactions.length : Int) ≤ i →
        ParseBlock d b height i = .ok (some [], h, none)) := by
  rcases GetBlockByHeight_cases b height with ⟨e0, hb⟩ | ⟨blk, hb⟩
  · rw [ParseBlock_of_fetch_error d b height 0 e0 (by rw [hb])] at hok
    simp at hok
  · rw [ParseBlock_of_block d b height 0 blk hb] at hok
    obtain ⟨R, hR, hh, hres⟩ :=
      ParseBlockLoop_resume d b i blk.Header blk.Transactions 0 [] l h hok
    refine ⟨blk, R, hb, by simpa using hR, ?_, ?_⟩
    · rw [ParseBlock_of_block d b height i blk hb, hh]
      simpa using hres []
    · intro hlen
      rw [ParseBlock_of_block d b height i blk hb, hh]
      exact ParseBlockLoop_beyond d b i blk.Header blk.Transactions 0 _ (by simpa using hlen)

/-- C8, on the example chain: block 7 resumed at position 2 gives the deposit
at position 3 only. -/
theorem ParseBlock_resume_witness :
    ParseBlock demoDeps demoIndexer 7 0 = .ok (some results7, some (demoHeader 107), none) ∧
    ∃ (blk : MsgBlock) (L : List BitcoinTxParseResult),
      GetBlockByHeight demoIndexer 7 = (some blk, none) ∧ some results7 = some L ∧
      ParseBlock demoDeps demoIndexer 7 2 =
        .ok (some (L.filter (fun r => decide ((2 : Int) ≤ r.Index))),
          some (demoHeader 107), none) ∧
      ((blk.Transactions.length : Int) ≤ 2 →
        ParseBlock demoDeps demoIndexer 7 2 = .ok (some [], some (demoHeader 107), none)) :=
  ⟨rfl, ParseBlock_resume demoDeps demoIndexer 7 2 (some results7) (some (demoHeader 107)) rfl⟩

/-! ## The output side: `parseToAddress` -/

theorem wrapInt64_add_left (a c : Int) : wrapInt64 (wrapInt64 a + c) = wrapInt64 (a + c) := by
  unfold wrapInt64
  omega

theorem wrapInt64_of_range (a : Int) (h1 : -(2 ^ 63) ≤ a) (h2 : a < 2 ^ 63) :
    wrapInt64 a = a := by
  unfold wrapInt64
  omega

theorem wrapInt64_idem (a : Int) : wrapInt64 (wrapInt64 a) = wrapInt64 a := by
  unfold wrapInt64
  omega

theorem sumTo_cons (dest : String) (t : BitcoinTo) (ts : List BitcoinTo) :
    sumTo dest (t :: ts) = (if t.Address = dest then t.Value else 0) + sumTo dest ts := by
  unfold sumTo
  by_cases h : t.Address = dest <;> simp [List.filter_cons, h]

theorem sumTo_append (dest : String) (ts us : List BitcoinTo) :
    sumTo dest (ts ++ us) = sumTo dest ts + sumTo dest us := by
  unfold sumTo
  simp [List.filter_append]

/-- A run of the output loop that ends without error appends the resolved
outputs to `tos`, adds their matched values to the total in `int64`
arithmetic, and raises the flag when one of them matches. -/
theorem parseToAddressLoop_ok (d : Deps) (b : AbelianIndexer) (outs : List TxOut) :
    ∀ (T : List BitcoinTo) (total : Int) (has : Bool) (tos2 : Slice BitcoinTo)
      (total2 : Int) (has2 : Bool),
      parseToAddressLoop d b outs (some T) total has = (tos2, total2, has2, none) →
      tos2 = some (T ++ resolvedOutputs d b outs) ∧
      total2 = (if (resolvedOutputs d b outs).any
            (fun t => decide (t.Address = b.listenAddress.EncodeAddress)) then
          wrapInt64 (total + sumTo b.listenAddress.EncodeAddress (resolvedOutputs d b outs))
        else total) ∧
      has2 = (has || (resolvedOutputs d b outs).any
        (fun t => decide (t.Address = b.listenAddress.EncodeAddress))) := by
  induction outs with
  | nil =>
    intro T total has tos2 total2 has2 h
    simp only [parseToAddressLoop, Prod.mk.injEq] at h
    simp [resolvedOutputs, h.1.symm, h.2.1.symm, h.2.2.1.symm]
  | cons v rest ih =>
    intro T total has tos2 total2 has2 h
    rw [parseToAddressLoop_cons] at h
    unfold resolvedOutputs at ih ⊢
    rcases ho : outputOutcome d b v with a | _ | err
    · rw [ho] at h
      simp only [List.filterMap_cons, ho]
      by_cases ha : a = b.listenAddress.EncodeAddress
      · simp only [ha, if_true, Slice.append] at h
        obtain ⟨h1, h2, h3⟩ := ih _ _ _ _ _ _ h
        refine ⟨by simpa [ha] using h1, ?_, by simp [h3, ha]⟩
        rw [h2]
        simp only [List.any_cons, ha, decide_True, Bool.true_or, if_true, sumTo_cons]
        split
        · rw [wrapInt64_add_left]; congr 1; omega
        · rename_i hany
          have hz : sumTo b.listenAddress.EncodeAddress
              (List.filterMap (fun v => match outputOutcome d b v with
                | .resolved a => some ⟨a, v.Value⟩
                | _ => none) rest) = 0 := by
            unfold sumTo
            rw [List.filter_eq_nil_iff.2]
            · simp
            · intro t ht hdec
              exact hany (List.any_eq_true.2 ⟨t, ht, hdec⟩)
          rw [hz]; simp
      · simp only [ha, if_false, Slice.append] at h
        obtain ⟨h1, h2, h3⟩ := ih _ _ _ _ _ _ h
        refine ⟨by simpa using h1, ?_, by simp [h3, ha]⟩
        rw [h2]
        simp [List.any_cons, ha, sumTo_cons]
    · rw [ho] at h
      simp only [List.filterMap_cons, ho]
      exact ih _ _ _ _ _ _ h
    · rw [ho] at h
      simp at h

/-- A run of the output loop that ends with an error returns nothing else. -/
theorem parseToAddressLoop_err (d : Deps) (b : AbelianIndexer) (outs : List TxOut) :
    ∀ (tos : Slice BitcoinTo) (total : Int) (has : Bool) (tos2 : Slice BitcoinTo)
      (total2 : Int) (has2 : Bool) (e : GoErr),
      parseToAddressLoop d b outs tos total has = (tos2, total2, has2, some e) →
      tos2 = none ∧ total2 = 0 ∧ has2 = false := by
  induction outs with
  | nil => intro tos total has tos2 total2 has2 e h; simp [parseToAddressLoop] at h
  | cons v rest ih =>
    intro tos total has tos2 total2 has2 e h
    rw [parseToAddressLoop_cons] at h
    rcases ho : outputOutcome d b v with a | _ | err
    · rw [ho] at h
      by_cases ha : a = b.listenAddress.EncodeAddress
      · simp only [ha, if_true] at h; exact ih _ _ _ _ _ _ _ h
      · simp only [ha, if_false] at h; exact ih _ _ _ _ _ _ _ h
    · rw [ho] at h; exact ih _ _ _ _ _ _ _ h
    · rw [ho] at h
      simp only [Prod.mk.injEq] at h
      exact ⟨h.1.symm, h.2.1.symm, h.2.2.1.symm⟩

/-- When `parseToAddress` raises the flag, it returned without error: `tos`
holds the resolved outputs, one of them pays the watched address, and the
total is the `int64` sum of the values paid to it. -/
theorem parseToAddress_matched (d : Deps) (b : AbelianIndexer) (outs : List TxOut)
    (tos : Slice BitcoinTo) (total : Int) (oe : Option GoErr)
    (h : parseToAddress d b outs = (tos, total, true, oe)) :
    oe = none ∧ tos = some (resolvedOutputs d b outs) ∧
    (resolvedOutputs d b outs).any
      (fun t => decide (t.Address = b.listenAddress.EncodeAddress)) = true ∧
    total = wrapInt64 (sumTo b.listenAddress.EncodeAddress (resolvedOutputs d b outs)) := by
  unfold parseToAddress at h
  cases oe with
  | some e => have := (parseToAddressLoop_err d b outs _ _ _ _ _ _ e h).2.2; simp at this
  | none =>
    obtain ⟨h1, h2, h3⟩ := parseToAddressLoop_ok d b outs [] 0 false _ _ _ h
    simp only [Bool.false_or] at h3
    rw [← h3] at h2
    simp only [if_true, zero_add] at h2
    exact ⟨rfl, by simpa using h1, h3.symm, h2⟩

/-- The entries of `tos` paying `dest` are those of the outputs resolving to it. -/
theorem resolvedOutputs_filter (d : Deps) (b : AbelianIndexer) (dest : String)
    (outs : List TxOut) :
    (resolvedOutputs d b outs).filter (fun t => decide (t.Address = dest)) =
      (outs.filter (fun v => decide (outputOutcome d b v = .resolved dest))).map
        (fun v => ⟨dest, v.Value⟩) := by
  unfold resolvedOutputs
  induction outs with
  | nil => simp
  | cons v rest ih =>
    rcases ho : outputOutcome d b v with a | _ | err
    · by_cases ha : a = dest
      · simp [List.filterMap_cons, List.filter_cons, ho, ha, ih]
      · simp [List.filterMap_cons, List.filter_cons, ho, ha, ih]
    · simp [List.filterMap_cons, List.filter_cons, ho, ih]
    · simp [List.filterMap_cons, List.filter_cons, ho, ih]

/-- C3. For every transaction for which `parseTx` emits a result `r`: `r.To`
is the watched address and `r.Value` is the sum of the `Value` fields of the
entries of `r.Tos` whose `Address` is `r.To`, the sum being taken in `int64`
arithmetic as the code does (so it is the exact sum whenever that fits in an
`int64`). In particular, when exactly two outputs of the transaction resolve
to the watched address, with values `V1` and `V2`, `r.Tos` has exactly two
entries carrying the watched address, with these values, and
`r.Value = V1 + V2`. -/
theorem parseTx_value_sum (d : Deps) (b : AbelianIndexer) (tx : MsgTx) (k : Nat)
    (r : BitcoinTxParseResult) (e : Option GoErr)
    (h : parseTx d b tx k = .ok (some r, e)) :
    r.To = b.listenAddress.EncodeAddress ∧
    r.Value = wrapInt64 (sumTo r.To r.Tos.elems) ∧
    (-(2 ^ 63) ≤ sumTo r.To r.Tos.elems → sumTo r.To r.Tos.elems < 2 ^ 63 →
      r.Value = sumTo r.To r.Tos.elems) ∧
    (∀ V1 V2 : Int,
      (tx.TxOut.filter (fun v => decide
        (outputOutcome d b v = .resolved b.listenAddress.EncodeAddress))).map
          (fun v => v.Value) = [V1, V2] →
      r.Tos.elems.filter (fun t => decide (t.Address = r.To)) = [⟨r.To, V1⟩, ⟨r.To, V2⟩] ∧
      r.Value = wrapInt64 (V1 + V2) ∧
      (-(2 ^ 63) ≤ V1 + V2 → V1 + V2 < 2 ^ 63 → r.Value = V1 + V2)) := by
  obtain ⟨_, tos, total, oe, froms, hto, _, _, hr⟩ := parseTx_some d b tx k r e h
  obtain ⟨_, htos, _, htotal⟩ := parseToAddress_matched d b tx.TxOut tos total oe hto
  have hTo : r.To = b.listenAddress.EncodeAddress := by rw [hr]
  have hTos : r.Tos.elems = resolvedOutputs d b tx.TxOut := by rw [hr, htos]; rfl
  have hV : r.Value = total := by rw [hr]
  have hsum : r.Value = wrapInt64 (sumTo r.To r.Tos.elems) := by
    rw [hV, hTo, hTos, htotal]
  refine ⟨hTo, hsum, ?_, ?_⟩
  · intro h1 h2
    rw [hsum, wrapInt64_of_range _ h1 h2]
  · intro V1 V2 hvals
    have hf : r.Tos.elems.filter (fun t => decide (t.Address = r.To)) =
        [⟨r.To, V1⟩, ⟨r.To, V2⟩] := by
      rw [hTos, hTo, resolvedOutputs_filter]
      have := congrArg (List.map (fun x : Int =>
        (⟨b.listenAddress.EncodeAddress, x⟩ : BitcoinTo))) hvals
      simpa [List.map_map, Function.comp] using this
    have hs : sumTo r.To r.Tos.elems = V1 + V2 := by
      unfold sumTo
      rw [hf]
      simp
    refine ⟨hf, by rw [hsum, hs], ?_⟩
    intro h1 h2
    rw [hsum, hs, wrapInt64_of_range _ h1 h2]

/-- C3, on the example chain: the deposit pays the watched address 10 and 20
(and 5 back to alice), and its value is 30. -/
theorem parseTx_value_sum_witness :
    (∃ r, parseTx demoDeps demoIndexer txDeposit 1 = .ok (some r, none) ∧
      r.Value = 30 ∧
      r.Tos.elems.filter (fun t => decide (t.Address = r.To)) =
        [⟨"watched", 10⟩, ⟨"watched", 20⟩]) :=
  ⟨_, rfl,
    ((parseTx_value_sum demoDeps demoIndexer txDeposit 1 _ none rfl).2.2.2 10 20 rfl).2.2
      (by decide) (by decide),
    ((parseTx_value_sum demoDeps demoIndexer txDeposit 1 _ none rfl).2.2.2 10 20 rfl).1⟩

/-! ## The input side: `parseFromAddress` -/

/-- The input loop passes the inputs that are skipped or attributed. -/
theorem parseFromAddressLoop_pass (d : Deps) (b : AbelianIndexer) (pre rest : List TxIn) :
    ∀ (acc : Slice BitcoinFrom),
      (∀ u ∈ pre, inputOutcome d b u = .skipped ∨ ∃ a, inputOutcome d b u = .sender a) →
      ∃ acc2, parseFromAddressLoop d b (pre ++ rest) acc =
        parseFromAddressLoop d b rest acc2 := by
  induction pre with
  | nil => intro acc _; exact ⟨acc, rfl⟩
  | cons u pre ih =>
    intro acc hpre
    have hu := hpre u (List.mem_cons_self _ _)
    have hrest : ∀ w ∈ pre, inputOutcome d b w = .skipped ∨
        ∃ a, inputOutcome d b w = .sender a :=
      fun w hw => hpre w (List.mem_cons_of_mem _ hw)
    rw [List.cons_append, parseFromAddressLoop_cons]
    rcases hu with hs | ⟨a, ha⟩
    · rw [hs]; exact ih acc hrest
    · rw [ha]; exact ih _ hrest

/-- The input loop returns `(nil, nil)` at a coinbase input reached without
failure, whatever was attributed before. -/
theorem parseFromAddressLoop_coinbase (d : Deps) (b : AbelianIndexer)
    (pre : List TxIn) (cb : TxIn) (post : List TxIn) :
    ∀ (acc : Slice BitcoinFrom),
      (∀ u ∈ pre, (∀ e, inputOutcome d b u ≠ .failed e) ∧
        ∀ p, inputOutcome d b u ≠ .panicked p) →
      inputOutcome d b cb = .coinbase →
      parseFromAddressLoop d b (pre ++ cb :: post) acc = .ok (none, none) := by
  induction pre with
  | nil =>
    intro acc _ hcb
    rw [List.nil_append, parseFromAddressLoop_cons, hcb]
  | cons u pre ih =>
    intro acc hpre hcb
    have hu := hpre u (List.mem_cons_self _ _)
    have hrest : ∀ w ∈ pre, (∀ e, inputOutcome d b w ≠ .failed e) ∧
        ∀ p, inputOutcome d b w ≠ .panicked p :=
      fun w hw => hpre w (List.mem_cons_of_mem _ hw)
    rw [List.cons_append, parseFromAddressLoop_cons]
    rcases ho : inputOutcome d b u with _ | e | p | _ | a
    · rfl
    · exact absurd ho (hu.1 e)
    · exact absurd ho (hu.2 p)
    · exact ih _ hrest hcb
    · exact ih _ hrest hcb

theorem zeroHash_String : zeroHash.String = coinbaseSentinel := by rfl

theorem inputOutcome_zeroHash (d : Deps) (b : AbelianIndexer) (cb : TxIn)
    (h : cb.PreviousOutPoint.Hash = zeroHash) : inputOutcome d b cb = .coinbase := by
  unfold inputOutcome
  rw [h, zeroHash_String]
  simp

/-- The result of `parseTx` in terms of its two halves. -/
theorem parseTx_of_from (d : Deps) (b : AbelianIndexer) (tx : MsgTx) (k : Nat)
    (out : Slice BitcoinFrom × Option GoErr)
    (hfrom : parseFromAddress d b tx.TxIn = .ok out)
    (hnil : out.2 = none → out.1.len = 0) :
    parseTx d b tx k = .ok (none,
      if (parseToAddress d b tx.TxOut).2.2.1 = true then
        out.2.map (fun err => .wrapf ("vin parse err:" ++ err.Error d.errText) err)
      else none) := by
  unfold parseTx
  rcases hto : parseToAddress d b tx.TxOut with ⟨tos, total, has, oe⟩
  cases has with
  | false => simp
  | true =>
    rcases out with ⟨froms, _ | err⟩
    · have := hnil rfl
      simp only at this
      simp [hfrom, this]
    · simp [hfrom]

/-- C4. A transaction with an input whose previous-output hash is the
all-zero coinbase hash, no earlier input of which fails its lookup (returns
an error or reads out of range), yields `(nil, nil)` from `parseTx`, whether
or not it pays the watched address and whatever senders the earlier inputs
had attributed: `parseFromAddress` itself returns `(nil, nil)`. When the
coinbase input is the only input this holds for every chain reader, one
that fails every fetch included: no previous transaction is needed. -/
theorem parseTx_coinbase (d : Deps) (b : AbelianIndexer) (tx : MsgTx) (k : Nat)
    (pre : List TxIn) (cb : TxIn) (post : List TxIn)
    (hin : tx.TxIn = pre ++ cb :: post)
    (hcb : cb.PreviousOutPoint.Hash = zeroHash)
    (hpre : ∀ u ∈ pre, (∀ e, inputOutcome d b u ≠ .failed e) ∧
      ∀ p, inputOutcome d b u ≠ .panicked p) :
    parseFromAddress d b tx.TxIn = .ok (none, none) ∧
    parseTx d b tx k = .ok (none, none) ∧
    (pre = [] → ∀ c : Client,
      parseFromAddress d { b with client := c } tx.TxIn = .ok (none, none) ∧
      parseTx d { b with client := c } tx k = .ok (none, none)) := by
  have key : ∀ b2 : AbelianIndexer,
      (∀ u ∈ pre, (∀ e, inputOutcome d b2 u ≠ .failed e) ∧
        ∀ p, inputOutcome d b2 u ≠ .panicked p) →
      parseFromAddress d b2 tx.TxIn = .ok (none, none) ∧
      parseTx d b2 tx k = .ok (none, none) := by
    intro b2 hpre2
    have hfrom : parseFromAddress d b2 tx.TxIn = .ok (none, none) := by
      unfold parseFromAddress
      rw [hin]
      exact parseFromAddressLoop_coinbase d b2 pre cb post none hpre2
        (inputOutcome_zeroHash d b2 cb hcb)
    refine ⟨hfrom, ?_⟩
    rw [parseTx_of_from d b2 tx k (none, none) hfrom (fun _ => rfl)]
    simp
  refine ⟨(key b hpre).1, (key b hpre).2, ?_⟩
  intro hnil c
  subst hnil
  exact key _ (by simp)

/-- C4, on the example chain: a payment to the watched address spending an
output of alice and then a coinbase output, and a coinbase transaction read
through a chain reader that fails every call. -/
theorem parseTx_coinbase_witness :
    inputOutcome demoDeps demoIndexer (demoIn (hashOf 1) 0) = .sender "alice" ∧
    parseTx demoDeps demoIndexer txMixed 5 = .ok (none, none) ∧
    parseTx demoDeps { demoIndexer with client := deadClient } txCoinbase 0 =
      .ok (none, none) :=
  ⟨rfl,
   (parseTx_coinbase demoDeps demoIndexer txMixed 5 [demoIn (hashOf 1) 0] (demoIn zeroHash 0) []
      rfl rfl (by
        intro u hu
        simp only [List.mem_singleton] at hu
        subst hu
        have ho : inputOutcome demoDeps demoIndexer (demoIn (hashOf 1) 0) = .sender "alice" := rfl
        rw [ho]
        exact ⟨fun e => by simp, fun p => by simp⟩)).2.1,
   ((parseTx_coinbase demoDeps demoIndexer txCoinbase 0 [] (demoIn zeroHash 4294967295) []
      rfl rfl (by simp)).2.2 rfl deadClient).2⟩

/-- The output loop keeps the flag down when no output resolves to the
watched address. -/
theorem parseToAddressLoop_unmatched (d : Deps) (b : AbelianIndexer) (outs : List TxOut) :
    ∀ (tos : Slice BitcoinTo) (total : Int),
      (∀ v ∈ outs, outputOutcome d b v ≠ .resolved b.listenAddress.EncodeAddress) →
      (parseToAddressLoop d b outs tos total false).2.2.1 = false := by
  induction outs with
  | nil => intro tos total _; rfl
  | cons v rest ih =>
    intro tos total hno
    have hv := hno v (List.mem_cons_self _ _)
    have hrest : ∀ w ∈ rest, outputOutcome d b w ≠ .resolved b.listenAddress.EncodeAddress :=
      fun w hw => hno w (List.mem_cons_of_mem _ hw)
    rw [parseToAddressLoop_cons]
    rcases ho : outputOutcome d b v with a | _ | err
    · have ha : a ≠ b.listenAddress.EncodeAddress := by
        intro ha; subst ha; exact hv ho
      simp only [ha, if_false]
      exact ih _ _ hrest
    · exact ih _ _ hrest
    · rfl

/-- An unmatched transaction yields `(nil, nil)`, whatever its inputs. -/
theorem parseTx_of_unmatched (d : Deps) (b : AbelianIndexer) (tx : MsgTx) (k : Nat)
    (h : (parseToAddress d b tx.TxOut).2.2.1 = false) :
    parseTx d b tx k = .ok (none, none) := by
  unfold parseTx
  rcases hto : parseToAddress d b tx.TxOut with ⟨tos, total, has, oe⟩
  rw [hto] at h
  simp only at h
  subst h
  simp

/-- C6. For every transaction none of whose outputs resolves to the watched
address, `parseToAddress` reports it unmatched and `parseTx` returns
`(nil, nil)`; it does so for every chain reader in place of the indexer's
own, so that no answer to a previous-transaction fetch, a failure included,
can change the outcome: the inputs are not resolved. -/
theorem parseTx_unmatched (d : Deps) (b : AbelianIndexer) (tx : MsgTx) (k : Nat)
    (hno : ∀ v ∈ tx.TxOut, outputOutcome d b v ≠ .resolved b.listenAddress.EncodeAddress) :
    (parseToAddress d b tx.TxOut).2.2.1 = false ∧
    parseTx d b tx k = .ok (none, none) ∧
    ∀ c : Client, parseTx d { b with client := c } tx k = .ok (none, none) := by
  have hflag : ∀ b2 : AbelianIndexer,
      (∀ v ∈ tx.TxOut, outputOutcome d b2 v ≠ .resolved b2.listenAddress.EncodeAddress) →
      (parseToAddress d b2 tx.TxOut).2.2.1 = false :=
    fun b2 h2 => parseToAddressLoop_unmatched d b2 tx.TxOut _ _ h2
  exact ⟨hflag b hno, parseTx_of_unmatched d b tx k (hflag b hno),
    fun c => parseTx_of_unmatched d _ tx k (hflag _ hno)⟩

/-- C6, on the example chain: a payment to alice whose input cannot be
fetched is not a deposit and not an error. -/
theorem parseTx_unmatched_witness :
    GetRawTransaction demoIndexer (hashOf 9) =
      .error (.foreign "No such mempool or blockchain transaction") ∧
    parseTx demoDeps demoIndexer txLostOther 0 = .ok (none, none) ∧
    parseTx demoDeps { demoIndexer with client := deadClient } txLostOther 0 =
      .ok (none, none) :=
  ⟨rfl,
   (parseTx_unmatched demoDeps demoIndexer txLostOther 0 (by
      intro v hv
      simp only [txLostOther, demoTx, List.mem_singleton] at hv
      subst hv
      have ho : outputOutcome demoDeps demoIndexer ⟨1, [0x76, 2]⟩ = .resolved "alice" := rfl
      rw [ho]
      decide)).2.1,
   (parseTx_unmatched demoDeps demoIndexer txLostOther 0 (by
      intro v hv
      simp only [txLostOther, demoTx, List.mem_singleton] at hv
      subst hv
      have ho : outputOutcome demoDeps demoIndexer ⟨1, [0x76, 2]⟩ = .resolved "alice" := rfl
      rw [ho]
      decide)).2.2 deadClient⟩

/-- C7. For a transaction that `parseToAddress` reports as paying the
watched address, when the inputs before `vin` are all passed (skipped or
attributed to a sender, so none is a coinbase input) and `vin` is not a
coinbase input: if the fetch of its previous transaction fails with `e0`,
`parseTx` returns a nil result and the error `vin parse err:` wrapping
`vin get raw transaction err:` wrapping `e0`; if the script of its previous
output fails to resolve with an error `err` that is neither of kind
`ErrParsePkScript` nor of kind `ErrParsePkScriptNullData`, `parseTx` returns
a nil result and the error `vin parse err:` wrapping `err`. The input is not
skipped. -/
theorem parseTx_input_failure (d : Deps) (b : AbelianIndexer) (tx : MsgTx) (k : Nat)
    (pre : List TxIn) (vin : TxIn) (post : List TxIn)
    (hm : (parseToAddress d b tx.TxOut).2.2.1 = true)
    (hin : tx.TxIn = pre ++ vin :: post)
    (hpre : ∀ u ∈ pre, inputOutcome d b u = .skipped ∨ ∃ a, inputOutcome d b u = .sender a)
    (hcb : vin.PreviousOutPoint.Hash.String ≠ coinbaseSentinel) :
    (∀ e0, GetRawTransaction b vin.PreviousOutPoint.Hash = .error e0 →
      parseTx d b tx k = .ok (none, some
        (.wrapf ("vin parse err:" ++ ("vin get raw transaction err:" ++ e0.Error d.errText))
          (.wrapf ("vin get raw transaction err:" ++ e0.Error d.errText) e0)))) ∧
    (∀ prevTx prevOut a err, GetRawTransaction b vin.PreviousOutPoint.Hash = .ok prevTx →
      prevTx.TxOut[vin.PreviousOutPoint.Index]? = some prevOut →
      parseAddress d b prevOut.PkScript = (a, some err) →
      err.Is .ErrParsePkScript = false → err.Is .ErrParsePkScriptNullData = false →
      parseTx d b tx k = .ok (none, some
        (.wrapf ("vin parse err:" ++ err.Error d.errText) err))) := by
  have key : ∀ e, inputOutcome d b vin = .failed e →
      parseTx d b tx k = .ok (none, some (.wrapf ("vin parse err:" ++ e.Error d.errText) e)) := by
    intro e he
    have hfrom : parseFromAddress d b tx.TxIn = .ok (none, some e) := by
      unfold parseFromAddress
      rw [hin]
      obtain ⟨acc2, hacc⟩ := parseFromAddressLoop_pass d b pre (vin :: post) none hpre
      rw [hacc, parseFromAddressLoop_cons, he]
    rw [parseTx_of_from d b tx k (none, some e) hfrom (fun h => by simp at h)]
    simp [hm]
  constructor
  · intro e0 hget
    have he : inputOutcome d b vin =
        .failed (.wrapf ("vin get raw transaction err:" ++ e0.Error d.errText) e0) := by
      unfold inputOutcome
      simp [hcb, hget]
    rw [key _ he]
    rfl
  · intro prevTx prevOut a err hget hout hpa h1 h2
    have hlen : prevTx.TxOut.length ≠ 0 := by
      intro h0
      have : prevTx.TxOut = [] := List.length_eq_zero.1 h0
      rw [this] at hout
      simp at hout
    have he : inputOutcome d b vin = .failed err := by
      unfold inputOutcome
      simp [hcb, hget, hlen, hout, hpa, h1, h2]
    exact key _ he

/-- C7, on the example chain: a deposit whose input cannot be fetched; and,
with the library that cannot render the bare script `[0x51]`, a deposit
whose second input spends an output carrying that script. -/
theorem parseTx_input_failure_witness :
    parseTx demoDeps demoIndexer txLost 0 = .ok (none, some
      (.wrapf "vin parse err:vin get raw transaction err:No such mempool or blockchain transaction"
        (.wrapf "vin get raw transaction err:No such mempool or blockchain transaction"
          (.foreign "No such mempool or blockchain transaction")))) ∧
    parseTx brittleDeps demoIndexer txOdd 0 = .ok (none, some
      (.wrapf "vin parse err:PKScript to address err:unable to parse address"
        (.wrapf "PKScript to address err:unable to parse address"
          (.foreign "unable to parse address")))) :=
  ⟨(parseTx_input_failure demoDeps demoIndexer txLost 0 [] (demoIn (hashOf 9) 0) []
      rfl rfl (by simp) (by decide)).1 _ rfl,
   (parseTx_input_failure brittleDeps demoIndexer txOdd 0 [demoIn (hashOf 1) 0]
      (demoIn (hashOf 3) 0) [] rfl rfl (by
        intro u hu
        simp only [List.mem_singleton] at hu
        subst hu
        exact Or.inr ⟨"alice", rfl⟩) (by decide)).2 prevOdd ⟨1, [0x51]⟩ "" _ rfl rfl rfl rfl rfl⟩

/-! ## The confirmation gate: `CheckConfirmations` -/

/-- C5. When the hash string parses and the verbose fetch succeeds with
confirmation count `c`, `CheckConfirmations` returns an error exactly when
`c < targetConfirmations`; that error is of kind `ErrTargetConfirmations` and
its message carries `c` and the target in decimal; otherwise it returns nil.
With target 1 it fails for `c = 0` and passes for `c = 1`. When the hash
string does not parse, or the fetch fails, that error is returned as it is. -/
theorem CheckConfirmations_spec (d : Deps) (b : AbelianIndexer) (hash : String) :
    (∀ e, d.NewHashFromStr hash = .error e →
      CheckConfirmations d b hash = .ok (some e)) ∧
    (∀ txHash e, d.NewHashFromStr hash = .ok txHash →
      b.client.GetRawTransactionVerbose txHash = .error e →
      CheckConfirmations d b hash = .ok (some e)) ∧
    (∀ txHash v, d.NewHashFromStr hash = .ok txHash →
      b.client.GetRawTransactionVerbose txHash = .ok v →
      ((∃ err, CheckConfirmations d b hash = .ok (some err)) ↔
        v.Confirmations < b.targetConfirmations) ∧
      (v.Confirmations < b.targetConfirmations →
        ∃ err, CheckConfirmations d b hash = .ok (some err) ∧
          err.Is .ErrTargetConfirmations = true ∧
          err.Error d.errText =
            d.errText .ErrTargetConfirmations ++ ", current confirmations:"
              ++ toString v.Confirmations ++ " target confirmations: "
              ++ toString b.targetConfirmations) ∧
      (b.targetConfirmations ≤ v.Confirmations → CheckConfirmations d b hash = .ok none) ∧
      (b.targetConfirmations = 1 →
        (v.Confirmations = 0 → ∃ err, CheckConfirmations d b hash = .ok (some err) ∧
          err.Is .ErrTargetConfirmations = true) ∧
        (v.Confirmations = 1 → CheckConfirmations d b hash = .ok none))) := by
  refine ⟨?_, ?_, ?_⟩
  · intro e he
    simp [CheckConfirmations, GetRawTransactionVerbose, he]
  · intro txHash e hh he
    simp [CheckConfirmations, GetRawTransactionVerbose, hh, he]
  · intro txHash v hh hv
    have hlt : v.Confirmations < b.targetConfirmations →
        CheckConfirmations d b hash = .ok (some (.wrapf
          (d.errText .ErrTargetConfirmations ++ ", current confirmations:"
            ++ toString v.Confirmations ++ " target confirmations: "
            ++ toString b.targetConfirmations)
          (.sentinel .ErrTargetConfirmations))) := by
      intro hlt
      simp [CheckConfirmations, GetRawTransactionVerbose, hh, hv, hlt]
    have hge : b.targetConfirmations ≤ v.Confirmations →
        CheckConfirmations d b hash = .ok none := by
      intro hge
      have : ¬ v.Confirmations < b.targetConfirmations := by omega
      simp [CheckConfirmations, GetRawTransactionVerbose, hh, hv, this]
    refine ⟨⟨?_, fun h => ⟨_, hlt h⟩⟩, fun h => ⟨_, hlt h, by simp [GoErr.Is], rfl⟩,
      hge, fun h1 => ⟨fun h0 => ⟨_, hlt (by omega), by simp [GoErr.Is]⟩,
        fun h0 => hge (by omega)⟩⟩
    rintro ⟨err, herr⟩
    by_contra hnot
    rw [hge (by omega)] at herr
    simp at herr

/-- C5, on the example chain with target 1: the transaction `01` has no
confirmation, the transaction `02` has one, and `zz` is not a hash. -/
theorem CheckConfirmations_spec_witness :
    CheckConfirmations demoDeps demoIndexer "zz" =
      .ok (some (.foreign "invalid hash string")) ∧
    ((∃ err, CheckConfirmations demoDeps demoIndexer "01" = .ok (some err)) ↔ 0 < 1) ∧
    (∃ err, CheckConfirmations demoDeps demoIndexer "01" = .ok (some err) ∧
      err.Is .ErrTargetConfirmations = true ∧
      err.Error demoText =
        "target confirmation number was not reached, current confirmations:0 target confirmations: 1") ∧
    CheckConfirmations demoDeps demoIndexer "02" = .ok none :=
  ⟨(CheckConfirmations_spec demoDeps demoIndexer "zz").1 _ rfl,
   ((CheckConfirmations_spec demoDeps demoIndexer "01").2.2 (hashOf 1) ⟨"01", 0⟩ rfl rfl).1,
   ((CheckConfirmations_spec demoDeps demoIndexer "01").2.2 (hashOf 1) ⟨"01", 0⟩ rfl rfl).2.1
     (by decide),
   ((CheckConfirmations_spec demoDeps demoIndexer "02").2.2 (hashOf 2) ⟨"02", 1⟩ rfl rfl).2.2.2
     rfl |>.2 rfl⟩

/-! ## Construction: `NewAbelianIndexer` -/

/-- C9. `NewAbelianIndexer` fails exactly when decoding the watched-address
string under the given chain parameters fails. On failure it returns no
indexer and an error of kind `ErrDecodeListenAddress` whose message is the
text of `ErrDecodeListenAddress`, a colon and the decoder's message. On
success it returns no error and an indexer holding the decoded address and
the client, chain parameters and target confirmations it was given. -/
theorem NewAbelianIndexer_spec (d : Deps) (client : Client) (chainParams : Params)
    (listenAddress : String) (targetConfirmations : Nat) :
    (∀ e, d.DecodeAddress listenAddress chainParams = .error e →
      ∃ err, NewAbelianIndexer d client chainParams listenAddress targetConfirmations =
          (none, some err) ∧
        err.Is .ErrDecodeListenAddress = true ∧
        err.Error d.errText =
          d.errText .ErrDecodeListenAddress ++ ":" ++ e.Error d.errText) ∧
    (∀ address, d.DecodeAddress listenAddress chainParams = .ok address →
      NewAbelianIndexer d client chainParams listenAddress targetConfirmations =
        (some { client := client, chainParams := chainParams, listenAddress := address,
                targetConfirmations := targetConfirmations }, none)) ∧
    ((NewAbelianIndexer d client chainParams listenAddress targetConfirmations).2 ≠ none ↔
      ∃ e, d.DecodeAddress listenAddress chainParams = .error e) ∧
    ((NewAbelianIndexer d client chainParams listenAddress targetConfirmations).1 = none ↔
      ∃ e, d.DecodeAddress listenAddress chainParams = .error e) := by
  unfold NewAbelianIndexer
  rcases hd : d.DecodeAddress listenAddress chainParams with e | address
  · refine ⟨fun e2 he => ⟨_, rfl, by simp [GoErr.Is], ?_⟩, fun a ha => by simp at ha,
      by simp, by simp⟩
    simp only [Except.error.injEq] at he
    subst he
    rfl
  · exact ⟨fun e he => by simp at he, fun a ha => by
      simp only [Except.ok.injEq] at ha
      subst ha
      rfl, by simp, by simp⟩

/-- C9, with the example decoder: the empty string and a string with a bad
checksum are refused, a well-formed string is accepted. -/
theorem NewAbelianIndexer_spec_witness :
    (∃ err, NewAbelianIndexer demoDeps demoClient ⟨"mainnet"⟩ "" 1 = (none, some err) ∧
      err.Is .ErrDecodeListenAddress = true ∧
      err.Error demoText = "decode listen address err:decoded address is of unknown format") ∧
    (∃ err, NewAbelianIndexer demoDeps demoClient ⟨"mainnet"⟩
        "1CpnsCEQ3Q4d15rLkrANnfd9GtYNHJRsYy" 1 = (none, some err) ∧
      err.Is .ErrDecodeListenAddress = true ∧
      err.Error demoText = "decode listen address err:checksum mismatch") ∧
    NewAbelianIndexer demoDeps demoClient ⟨"mainnet"⟩ "watched" 1 = (some demoIndexer, none) :=
  ⟨(NewAbelianIndexer_spec demoDeps demoClient ⟨"mainnet"⟩ "" 1).1 _ rfl,
   (NewAbelianIndexer_spec demoDeps demoClient ⟨"mainnet"⟩
      "1CpnsCEQ3Q4d15rLkrANnfd9GtYNHJRsYy" 1).1 _ rfl,
   (NewAbelianIndexer_spec demoDeps demoClient ⟨"mainnet"⟩ "watched" 1).2.1 ⟨"watched"⟩ rfl⟩

/-! ## Script resolution: `ParseAddress` -/

/-- C11. Every column name returned by `Deposit.Column` is the `json` tag of
the field of `Deposit` with the same Go name as the field of `DepositColumns`
that holds it; there are 19 of them, one for each field, and they are
pairwise distinct. -/
theorem Deposit_Column_tags :
    (∀ f : DepositField, Deposit.Column.field f = Deposit.jsonTag f) ∧
    (∀ f : DepositField, f ∈ DepositField.all) ∧
    DepositField.all.Nodup ∧
    Deposit.columnNames = DepositField.all.map Deposit.jsonTag ∧
    Deposit.columnNames.length = 19 ∧
    Deposit.columnNames.Nodup := by
  refine ⟨fun f => by cases f <;> rfl, fun f => by cases f <;> decide, by decide, by decide,
    by decide, by decide⟩

/-! ## The output side, continued: the entries of `tos` and the flag -/

theorem outputOutcome_resolved_iff (d : Deps) (b : AbelianIndexer) (v : TxOut) (a : String) :
    outputOutcome d b v = .resolved a ↔ parseAddress d b v.PkScript = (a, none) := by
  unfold outputOutcome
  rcases h : parseAddress d b v.PkScript with ⟨s, _ | err⟩
  · simp
  · by_cases h1 : err.Is .ErrParsePkScript = true
    · simp [h1]
    · by_cases h2 : err.Is .ErrParsePkScriptNullData = true
      · simp [h1, h2]
      · simp [h1, h2]

/-- An output whose script the parser rejects, or parses as null data, is skipped. -/
theorem outputOutcome_skipped (d : Deps) (b : AbelianIndexer) (v : TxOut)
    (h : (∃ e, d.ParsePkScript v.PkScript = .error e) ∨
      (∃ pk, d.ParsePkScript v.PkScript = .ok pk ∧ pk.Class = .NullDataTy)) :
    outputOutcome d b v = .skipped := by
  unfold outputOutcome parseAddress
  rcases h with ⟨e, he⟩ | ⟨pk, hpk, hc⟩
  · simp [he, GoErr.Is]
  · simp [hpk, hc, GoErr.Is]

/-- The resolved outputs, read off the results of `parseAddress`. -/
theorem resolvedOutputs_eq (d : Deps) (b : AbelianIndexer) (outs : List TxOut) :
    resolvedOutputs d b outs =
      outs.filterMap (fun v =>
        match parseAddress d b v.PkScript with
        | (a, none) => some ⟨a, v.Value⟩
        | (_, some _) => none) := by
  unfold resolvedOutputs
  apply List.filterMap_congr
  intro v _
  unfold outputOutcome
  rcases h : parseAddress d b v.PkScript with ⟨s, _ | err⟩
  · rfl
  · by_cases h1 : err.Is .ErrParsePkScript = true
    · simp [h1]
    · by_cases h2 : err.Is .ErrParsePkScriptNullData = true
      · simp [h1, h2]
      · simp [h1, h2]

theorem resolvedOutputs_length (d : Deps) (b : AbelianIndexer) (outs : List TxOut) :
    (resolvedOutputs d b outs).length =
      outs.countP (fun v => (parseAddress d b v.PkScript).2.isNone) := by
  rw [resolvedOutputs_eq]
  induction outs with
  | nil => rfl
  | cons v rest ih =>
    rcases h : parseAddress d b v.PkScript with ⟨s, _ | err⟩
    · simp [List.filterMap_cons, List.countP_cons, h, ih]
    · simp [List.filterMap_cons, List.countP_cons, h, ih]

/-- C16. For every output list on which `parseToAddress` succeeds (returns a
nil error), the returned `tos` is non-nil and holds, in output order, one
entry for exactly each output whose script `parseAddress` resolves (returns
with a nil error), made of the resolved address and that output's own value;
an output whose script is rejected by the parser or parses as null data
produces no entry; and the length of `tos` is the number of outputs that
resolve. The watched address plays no part in this. -/
theorem parseToAddress_tos (d : Deps) (b : AbelianIndexer) (outs : List TxOut)
    (tos : Slice BitcoinTo) (total : Int) (has : Bool)
    (h : parseToAddress d b outs = (tos, total, has, none)) :
    tos = some (outs.filterMap (fun v =>
      match parseAddress d b v.PkScript with
      | (a, none) => some ⟨a, v.Value⟩
      | (_, some _) => none)) ∧
    tos.len = outs.countP (fun v => (parseAddress d b v.PkScript).2.isNone) ∧
    (∀ v ∈ outs, ((∃ e, d.ParsePkScript v.PkScript = .error e) ∨
        (∃ pk, d.ParsePkScript v.PkScript = .ok pk ∧ pk.Class = .NullDataTy)) →
      (parseAddress d b v.PkScript).2.isNone = false) ∧
    (∀ t, t ∈ tos.elems ↔ ∃ v ∈ outs, parseAddress d b v.PkScript = (t.Address, none) ∧
      t.Value = v.Value) := by
  unfold parseToAddress at h
  obtain ⟨h1, _, _⟩ := parseToAddressLoop_ok d b outs [] 0 false _ _ _ h
  simp only [List.nil_append] at h1
  refine ⟨by rw [h1, resolvedOutputs_eq], ?_, ?_, ?_⟩
  · rw [h1]
    exact resolvedOutputs_length d b outs
  · intro v _ hv
    have hs := outputOutcome_skipped d b v hv
    cases hp : (parseAddress d b v.PkScript).2 with
    | some e => rfl
    | none =>
      have : outputOutcome d b v = .resolved (parseAddress d b v.PkScript).1 := by
        rw [outputOutcome_resolved_iff]
        rw [← hp]
      rw [hs] at this
      simp at this
  · intro t
    rw [h1]
    simp only [Slice.elems, resolvedOutputs, List.mem_filterMap]
    constructor
    · rintro ⟨v, hv, hm⟩
      rcases ho : outputOutcome d b v with a | _ | err
      · rw [ho] at hm
        simp only [Option.some.injEq] at hm
        subst hm
        exact ⟨v, hv, (outputOutcome_resolved_iff d b v a).1 ho, rfl⟩
      · rw [ho] at hm; simp at hm
      · rw [ho] at hm; simp at hm
    · rintro ⟨v, hv, hp, hval⟩
      refine ⟨v, hv, ?_⟩
      rw [(outputOutcome_resolved_iff d b v t.Address).2 hp]
      simp only [Option.some.injEq]
      cases t
      simp only at hval
      simp [hval]

/-- C16, on the example chain: of a null-data output, a payment to the
watched address, a script that does not parse and change to alice, the second
and the fourth give the entries of `tos`. -/
theorem parseToAddress_tos_witness :
    parseToAddress demoDeps demoIndexer txNoise.TxOut =
      (some [⟨"watched", 10⟩, ⟨"alice", 5⟩], 10, true, none) ∧
    Slice.len (some [(⟨"watched", 10⟩ : BitcoinTo), ⟨"alice", 5⟩]) =
      txNoise.TxOut.countP (fun v => (parseAddress demoDeps demoIndexer v.PkScript).2.isNone) ∧
    (some [⟨"watched", 10⟩, ⟨"alice", 5⟩] : Slice BitcoinTo) =
      some (txNoise.TxOut.filterMap (fun v =>
        match parseAddress demoDeps demoIndexer v.PkScript with
        | (a, none) => some ⟨a, v.Value⟩
        | (_, some _) => none)) :=
  ⟨rfl,
   (parseToAddress_tos demoDeps demoIndexer txNoise.TxOut _ 10 true rfl).2.1,
   (parseToAddress_tos demoDeps demoIndexer txNoise.TxOut _ 10 true rfl).1⟩

theorem inputOutcome_coinbase_iff (d : Deps) (b : AbelianIndexer) (vin : TxIn) :
    inputOutcome d b vin = .coinbase ↔
      vin.PreviousOutPoint.Hash.String = coinbaseSentinel := by
  unfold inputOutcome
  by_cases hc : vin.PreviousOutPoint.Hash.String = coinbaseSentinel
  · simp [hc]
  · simp only [hc, if_false, iff_false]
    rcases GetRawTransaction b vin.PreviousOutPoint.Hash with err | vinResult
    · simp
    · simp only
      by_cases hl : vinResult.TxOut.length = 0
      · simp [hl]
      · simp only [hl, if_false]
        rcases vinResult.TxOut[vin.PreviousOutPoint.Index]? with _ | prevOut
        · simp
        · simp only
          rcases parseAddress d b prevOut.PkScript with ⟨a, _ | err⟩
          · simp
          · simp only
            split <;> simp

/-- What the loop body does with an input whose previous output is found. -/
theorem inputOutcome_of_prevOut (d : Deps) (b : AbelianIndexer) (vin : TxIn)
    (prevTx : MsgTx) (prevOut : TxOut)
    (hcb : vin.PreviousOutPoint.Hash.String ≠ coinbaseSentinel)
    (hget : GetRawTransaction b vin.PreviousOutPoint.Hash = .ok prevTx)
    (hout : prevTx.TxOut[vin.PreviousOutPoint.Index]? = some prevOut) :
    inputOutcome d b vin =
      match parseAddress d b prevOut.PkScript with
      | (_, some err) =>
        if err.Is .ErrParsePkScript || err.Is .ErrParsePkScriptNullData then .skipped
        else .failed err
      | (a, none) => .sender a := by
  have hlen : prevTx.TxOut.length ≠ 0 := by
    intro h0
    rw [List.length_eq_zero.1 h0] at hout
    simp at hout
  unfold inputOutcome
  simp only [hcb, if_false, hget, hlen, hout]

/-- An input whose previous transaction has outputs, but none at the
referenced index, makes the loop body read out of range. -/
theorem inputOutcome_out_of_range (d : Deps) (b : AbelianIndexer) (vin : TxIn)
    (prevTx : MsgTx)
    (hcb : vin.PreviousOutPoint.Hash.String ≠ coinbaseSentinel)
    (hget : GetRawTransaction b vin.PreviousOutPoint.Hash = .ok prevTx)
    (hpos : 0 < prevTx.TxOut.length)
    (hidx : prevTx.TxOut.length ≤ vin.PreviousOutPoint.Index) :
    inputOutcome d b vin =
      .panicked (Panic.indexOutOfRange vin.PreviousOutPoint.Index prevTx.TxOut.length) := by
  have hlen : prevTx.TxOut.length ≠ 0 := by omega
  have hout : prevTx.TxOut[vin.PreviousOutPoint.Index]? = none :=
    List.getElem?_eq_none hidx
  unfold inputOutcome
  simp only [hcb, if_false, hget, hlen, hout]

/-- An input whose previous transaction has no outputs makes the loop body
return the error `vin txOut is null`. -/
theorem inputOutcome_no_outputs (d : Deps) (b : AbelianIndexer) (vin : TxIn)
    (prevTx : MsgTx)
    (hcb : vin.PreviousOutPoint.Hash.String ≠ coinbaseSentinel)
    (hget : GetRawTransaction b vin.PreviousOutPoint.Hash = .ok prevTx)
    (hnil : prevTx.TxOut = []) :
    inputOutcome d b vin = .failed (.errorf "vin txOut is null") := by
  unfold inputOutcome
  simp [hcb, hget, hnil]

/-- The sender an input contributes, read off the source: the address of the
referenced previous output when the previous transaction is fetched, has the
output and its script resolves. -/
theorem sender_of_input (d : Deps) (b : AbelianIndexer) (vin : TxIn)
    (hcb : vin.PreviousOutPoint.Hash.String ≠ coinbaseSentinel) :
    (match inputOutcome d b vin with
      | .sender a => some (⟨a⟩ : BitcoinFrom)
      | _ => none) =
    (match GetRawTransaction b vin.PreviousOutPoint.Hash with
      | .error _ => none
      | .ok prevTx =>
        match prevTx.TxOut[vin.PreviousOutPoint.Index]? with
        | none => none
        | some prevOut =>
          match parseAddress d b prevOut.PkScript with
          | (a, none) => some ⟨a⟩
          | (_, some _) => none) := by
  rcases hget : GetRawTransaction b vin.PreviousOutPoint.Hash with err | prevTx
  · have : inputOutcome d b vin =
        .failed (.wrapf ("vin get raw transaction err:" ++ err.Error d.errText) err) := by
      unfold inputOutcome
      simp [hcb, hget]
    rw [this]
  · dsimp only
    rcases hout : prevTx.TxOut[vin.PreviousOutPoint.Index]? with _ | prevOut
    · dsimp only
      by_cases hl : prevTx.TxOut.length = 0
      · rw [inputOutcome_no_outputs d b vin prevTx hcb hget (List.length_eq_zero.1 hl)]
      · have hidx : prevTx.TxOut.length ≤ vin.PreviousOutPoint.Index := by
          by_contra hlt
          rw [List.getElem?_eq_getElem (by omega)] at hout
          simp at hout
        rw [inputOutcome_out_of_range d b vin prevTx hcb hget (by omega) hidx]
    · dsimp only
      rw [inputOutcome_of_prevOut d b vin prevTx prevOut hcb hget hout]
      rcases hpa : parseAddress d b prevOut.PkScript with ⟨a, _ | err⟩
      · rfl
      · dsimp only
        by_cases hs : (err.Is .ErrParsePkScript || err.Is .ErrParsePkScriptNullData) = true
        · simp only [hs, if_true]
        · simp [hs]

theorem attributedSenders_eq (d : Deps) (b : AbelianIndexer) (ins : List TxIn)
    (hcb : ∀ vin ∈ ins, vin.PreviousOutPoint.Hash.String ≠ coinbaseSentinel) :
    attributedSenders d b ins =
      ins.filterMap (fun vin =>
        match GetRawTransaction b vin.PreviousOutPoint.Hash with
        | .error _ => none
        | .ok prevTx =>
          match prevTx.TxOut[vin.PreviousOutPoint.Index]? with
          | none => none
          | some prevOut =>
            match parseAddress d b prevOut.PkScript with
            | (a, none) => some ⟨a⟩
            | (_, some _) => none) := by
  unfold attributedSenders
  apply List.filterMap_congr
  intro vin hvin
  exact sender_of_input d b vin (hcb vin hvin)

/-- Appending a list of senders one by one. -/
theorem foldl_append_slice (l : List BitcoinFrom) :
    ∀ (acc : Slice BitcoinFrom),
      l.foldl Slice.append acc = if l = [] then acc else some (acc.elems ++ l) := by
  induction l with
  | nil => intro acc; simp
  | cons x rest ih =>
    intro acc
    rw [List.foldl_cons, ih]
    cases acc with
    | none =>
      by_cases hr : rest = []
      · simp [hr, Slice.append, Slice.elems]
      · simp [hr, Slice.append, Slice.elems]
    | some A =>
      by_cases hr : rest = []
      · simp [hr, Slice.append, Slice.elems]
      · simp [hr, Slice.append, Slice.elems]

/-- The input loop over inputs that are all skipped or attributed returns the
senders, appended in input order, and no error. -/
theorem parseFromAddressLoop_run (d : Deps) (b : AbelianIndexer) (ins : List TxIn) :
    ∀ (acc : Slice BitcoinFrom),
      (∀ u ∈ ins, inputOutcome d b u = .skipped ∨ ∃ a, inputOutcome d b u = .sender a) →
      parseFromAddressLoop d b ins acc =
        .ok ((attributedSenders d b ins).foldl Slice.append acc, none) := by
  induction ins with
  | nil => intro acc _; simp [parseFromAddressLoop, attributedSenders]
  | cons u rest ih =>
    intro acc hall
    have hu := hall u (List.mem_cons_self _ _)
    have hrest : ∀ w ∈ rest, inputOutcome d b w = .skipped ∨
        ∃ a, inputOutcome d b w = .sender a :=
      fun w hw => hall w (List.mem_cons_of_mem _ hw)
    rw [parseFromAddressLoop_cons]
    unfold attributedSenders at ih ⊢
    rcases hu with hs | ⟨a, ha⟩
    · simp only [hs, List.filterMap_cons]
      exact ih acc hrest
    · simp only [ha, List.filterMap_cons, List.foldl_cons]
      exact ih _ hrest

/-- A run of the input loop that ends without error over inputs none of which
is a coinbase input has skipped or attributed every input. -/
theorem parseFromAddressLoop_passed (d : Deps) (b : AbelianIndexer) (ins : List TxIn) :
    ∀ (acc froms : Slice BitcoinFrom),
      parseFromAddressLoop d b ins acc = .ok (froms, none) →
      (∀ vin ∈ ins, vin.PreviousOutPoint.Hash.String ≠ coinbaseSentinel) →
      ∀ u ∈ ins, inputOutcome d b u = .skipped ∨ ∃ a, inputOutcome d b u = .sender a := by
  induction ins with
  | nil => intro acc froms _ _ u hu; simp at hu
  | cons v rest ih =>
    intro acc froms h hcb u hu
    have hv := hcb v (List.mem_cons_self _ _)
    have hrest : ∀ w ∈ rest, w.PreviousOutPoint.Hash.String ≠ coinbaseSentinel :=
      fun w hw => hcb w (List.mem_cons_of_mem _ hw)
    rw [parseFromAddressLoop_cons] at h
    rcases ho : inputOutcome d b v with _ | e | p | _ | a
    · exact absurd ((inputOutcome_coinbase_iff d b v).1 ho) hv
    · rw [ho] at h; simp at h
    · rw [ho] at h; simp at h
    · rw [ho] at h
      rcases List.mem_cons.1 hu with rfl | hu2
      · exact Or.inl ho
      · exact ih _ _ h hrest u hu2
    · rw [ho] at h
      rcases List.mem_cons.1 hu with rfl | hu2
      · exact Or.inr ⟨a, ho⟩
      · exact ih _ _ h hrest u hu2

/-- C13 fails on the code: `parseFromAddress` guards only the empty output
list. On the example chain `txOutOfRange` pays the watched address and
spends output 1 of `prevBob`, which has the single output 0: the read
`TxOut[1]` is out of range and `parseFromAddress`, `parseTx` and `ParseBlock`
panic instead of returning an error. Only when the previous transaction has
no outputs at all (`txEmptyPrev`) is the error `vin txOut is null` returned. -/
theorem parseFromAddress_out_of_range :
    txOutOfRange.TxIn = [demoIn (hashOf 2) 1] ∧
    GetRawTransaction oddIndexer (hashOf 2) = .ok prevBob ∧
    prevBob.TxOut.length = 1 ∧
    (parseToAddress demoDeps oddIndexer txOutOfRange.TxOut).2.2.1 = true ∧
    parseFromAddress demoDeps oddIndexer txOutOfRange.TxIn =
      .error (Panic.indexOutOfRange 1 1) ∧
    parseTx demoDeps oddIndexer txOutOfRange 1 = .error (Panic.indexOutOfRange 1 1) ∧
    ParseBlock demoDeps oddIndexer 9 0 = .error (Panic.indexOutOfRange 1 1) ∧
    prevEmpty.TxOut.length = 0 ∧
    parseTx demoDeps oddIndexer txEmptyPrev 0 =
      .ok (none, some (.wrapf "vin parse err:vin txOut is null"
        (.errorf "vin txOut is null"))) :=
  ⟨rfl, rfl, rfl, rfl, rfl, rfl, rfl, rfl, rfl⟩

/-- The out-of-range read in general: a matched transaction whose inputs are
passed up to an input referencing an index at or beyond the length of a
non-empty previous output list makes `parseTx` panic. -/
theorem parseTx_out_of_range (d : Deps) (b : AbelianIndexer) (tx : MsgTx) (k : Nat)
    (pre : List TxIn) (vin : TxIn) (post : List TxIn) (prevTx : MsgTx)
    (hm : (parseToAddress d b tx.TxOut).2.2.1 = true)
    (hin : tx.TxIn = pre ++ vin :: post)
    (hpre : ∀ u ∈ pre, inputOutcome d b u = .skipped ∨ ∃ a, inputOutcome d b u = .sender a)
    (hcb : vin.PreviousOutPoint.Hash.String ≠ coinbaseSentinel)
    (hget : GetRawTransaction b vin.PreviousOutPoint.Hash = .ok prevTx)
    (hpos : 0 < prevTx.TxOut.length)
    (hidx : prevTx.TxOut.length ≤ vin.PreviousOutPoint.Index) :
    parseTx d b tx k =
      .error (Panic.indexOutOfRange vin.PreviousOutPoint.Index prevTx.TxOut.length) := by
  have hfrom : parseFromAddress d b tx.TxIn =
      .error (Panic.indexOutOfRange vin.PreviousOutPoint.Index prevTx.TxOut.length) := by
    unfold parseFromAddress
    rw [hin]
    obtain ⟨acc2, hacc⟩ := parseFromAddressLoop_pass d b pre (vin :: post) none hpre
    rw [hacc, parseFromAddressLoop_cons,
      inputOutcome_out_of_range d b vin prevTx hcb hget hpos hidx]
  unfold parseTx
  rcases hto : parseToAddress d b tx.TxOut with ⟨tos, total, has, oe⟩
  rw [hto] at hm
  simp only at hm
  subst hm
  simp [hfrom]

/-- C14. For an input list with no coinbase input: when `parseFromAddress`
succeeds (returns a nil error), every input was skipped or attributed, and
the returned senders are, in input order, the resolved addresses of the
referenced previous outputs of exactly the inputs whose previous transaction
is fetched, has the referenced output and whose script resolves; there is
one entry per such input, duplicates included, so the list is never longer
than the input list, and it is the nil slice when there is no such input. An
input whose previous output fails to resolve with an error of kind
`ErrParsePkScript` or `ErrParsePkScriptNullData` is skipped: it contributes
nothing and does not abort. And `parseFromAddress` does succeed whenever
every input is skipped or attributed. -/
theorem parseFromAddress_senders (d : Deps) (b : AbelianIndexer) (ins : List TxIn)
    (hcb : ∀ vin ∈ ins, vin.PreviousOutPoint.Hash.String ≠ coinbaseSentinel) :
    (∀ froms, parseFromAddress d b ins = .ok (froms, none) →
      froms.elems = ins.filterMap (fun vin =>
        match GetRawTransaction b vin.PreviousOutPoint.Hash with
        | .error _ => none
        | .ok prevTx =>
          match prevTx.TxOut[vin.PreviousOutPoint.Index]? with
          | none => none
          | some prevOut =>
            match parseAddress d b prevOut.PkScript with
            | (a, none) => some ⟨a⟩
            | (_, some _) => none) ∧
      froms.elems = attributedSenders d b ins ∧
      (froms = none ↔ attributedSenders d b ins = []) ∧
      froms.len = ins.countP (fun vin =>
        match inputOutcome d b vin with
        | .sender _ => true
        | _ => false) ∧
      froms.len ≤ ins.length ∧
      (∀ vin ∈ ins, inputOutcome d b vin = .skipped ∨
        ∃ a, inputOutcome d b vin = .sender a)) ∧
    (∀ vin ∈ ins, ∀ prevTx prevOut e,
      GetRawTransaction b vin.PreviousOutPoint.Hash = .ok prevTx →
      prevTx.TxOut[vin.PreviousOutPoint.Index]? = some prevOut →
      (parseAddress d b prevOut.PkScript).2 = some e →
      (e.Is .ErrParsePkScript = true ∨ e.Is .ErrParsePkScriptNullData = true) →
      inputOutcome d b vin = .skipped) ∧
    ((∀ vin ∈ ins, inputOutcome d b vin = .skipped ∨
        ∃ a, inputOutcome d b vin = .sender a) →
      parseFromAddress d b ins =
        .ok (if attributedSenders d b ins = [] then none
          else some (attributedSenders d b ins), none)) := by
  have hrun : (∀ vin ∈ ins, inputOutcome d b vin = .skipped ∨
        ∃ a, inputOutcome d b vin = .sender a) →
      parseFromAddress d b ins =
        .ok (if attributedSenders d b ins = [] then none
          else some (attributedSenders d b ins), none) := by
    intro hall
    unfold parseFromAddress
    rw [parseFromAddressLoop_run d b ins none hall, foldl_append_slice]
    simp [Slice.elems]
  have hcount : (attributedSenders d b ins).length = ins.countP (fun vin =>
      match inputOutcome d b vin with
      | .sender _ => true
      | _ => false) := by
    unfold attributedSenders
    clear hcb hrun
    induction ins with
    | nil => rfl
    | cons v rest ih =>
      rcases ho : inputOutcome d b v with _ | e | p | _ | a <;>
        simp [List.filterMap_cons, List.countP_cons, ho, ih]
  refine ⟨?_, ?_, hrun⟩
  · intro froms h
    have hall := parseFromAddressLoop_passed d b ins none froms h hcb
    have h2 := hrun hall
    rw [h] at h2
    simp only [Except.ok.injEq, Prod.mk.injEq, and_true] at h2
    have helems : froms.elems = attributedSenders d b ins := by
      rw [h2]
      by_cases hn : attributedSenders d b ins = []
      · simp [hn, Slice.elems]
      · simp [hn, Slice.elems]
    have hlen : froms.len = (attributedSenders d b ins).length := by
      rw [← helems]
      cases froms <;> rfl
    refine ⟨?_, helems, ?_, ?_, ?_, hall⟩
    · rw [helems, attributedSenders_eq d b ins hcb]
    · rw [h2]
      by_cases hn : attributedSenders d b ins = []
      · simp [hn]
      · simp [hn]
    · rw [hlen, hcount]
    · rw [hlen]
      exact List.length_filterMap_le _ _
  · intro vin hvin prevTx prevOut e hget hout hpa hkind
    rw [inputOutcome_of_prevOut d b vin prevTx prevOut (hcb vin hvin) hget hout]
    rcases hp : parseAddress d b prevOut.PkScript with ⟨a, _ | err⟩
    · rw [hp] at hpa; simp at hpa
    · rw [hp] at hpa
      simp only [Option.some.injEq] at hpa
      subst hpa
      rcases hkind with hk | hk <;> simp [hk]

/-- C14, on the example chain: of four inputs spending a null-data output,
an output of bob twice and an output of alice, the senders are bob, bob and
alice. -/
theorem parseFromAddress_senders_witness :
    parseFromAddress demoDeps demoIndexer txNoise.TxIn =
      .ok (some [⟨"bob"⟩, ⟨"bob"⟩, ⟨"alice"⟩], none) ∧
    Slice.elems (some [(⟨"bob"⟩ : BitcoinFrom), ⟨"bob"⟩, ⟨"alice"⟩]) =
      attributedSenders demoDeps demoIndexer txNoise.TxIn ∧
    Slice.len (some [(⟨"bob"⟩ : BitcoinFrom), ⟨"bob"⟩, ⟨"alice"⟩]) ≤ txNoise.TxIn.length ∧
    inputOutcome demoDeps demoIndexer (demoIn (hashOf 1) 1) = .skipped := by
  have hcb : ∀ vin ∈ txNoise.TxIn, vin.PreviousOutPoint.Hash.String ≠ coinbaseSentinel := by
    intro vin hvin
    simp only [txNoise, demoTx, List.mem_cons, List.mem_singleton, List.not_mem_nil,
      or_false] at hvin
    rcases hvin with rfl | rfl | rfl | rfl <;> decide
  have h := (parseFromAddress_senders demoDeps demoIndexer txNoise.TxIn hcb).1
    (some [⟨"bob"⟩, ⟨"bob"⟩, ⟨"alice"⟩]) rfl
  exact ⟨rfl, h.2.1, h.2.2.2.2.1,
    (parseFromAddress_senders demoDeps demoIndexer txNoise.TxIn hcb).2.1
      (demoIn (hashOf 1) 1) (by simp [txNoise, demoTx]) prevAlice ⟨0, [0x6a]⟩
      (.wrapf "parse pkscript err:unsupported script type" (.sentinel .ErrParsePkScript))
      rfl rfl rfl (Or.inl rfl)⟩

/-- C15. Every result emitted by `parseTx` has a non-nil, non-empty `From`
list. A transaction for which no sender is attributed, because it has no
inputs or because the previous output of every input fails to resolve with
an error of kind `ErrParsePkScript` or `ErrParsePkScriptNullData`, yields
`(nil, nil)` from `parseTx`, whether or not it pays the watched address:
neither a result with empty senders nor an error. -/
theorem parseTx_from_nonempty (d : Deps) (b : AbelianIndexer) (tx : MsgTx) (k : Nat) :
    (∀ r e, parseTx d b tx k = .ok (some r, e) →
      ∃ a rest, r.From = some (a :: rest)) ∧
    (tx.TxIn = [] → parseTx d b tx k = .ok (none, none)) ∧
    ((∀ vin ∈ tx.TxIn, inputOutcome d b vin = .skipped) →
      parseFromAddress d b tx.TxIn = .ok (none, none) ∧
      parseTx d b tx k = .ok (none, none)) ∧
    ((∀ vin ∈ tx.TxIn, vin.PreviousOutPoint.Hash.String ≠ coinbaseSentinel ∧
        ∃ prevTx prevOut e, GetRawTransaction b vin.PreviousOutPoint.Hash = .ok prevTx ∧
          prevTx.TxOut[vin.PreviousOutPoint.Index]? = some prevOut ∧
          (parseAddress d b prevOut.PkScript).2 = some e ∧
          (e.Is .ErrParsePkScript = true ∨ e.Is .ErrParsePkScriptNullData = true)) →
      parseTx d b tx k = .ok (none, none)) := by
  have hskip : (∀ vin ∈ tx.TxIn, inputOutcome d b vin = .skipped) →
      parseFromAddress d b tx.TxIn = .ok (none, none) ∧
      parseTx d b tx k = .ok (none, none) := by
    intro hall
    have hfrom : parseFromAddress d b tx.TxIn = .ok (none, none) := by
      unfold parseFromAddress
      rw [parseFromAddressLoop_run d b tx.TxIn none (fun u hu => Or.inl (hall u hu))]
      have hnil : attributedSenders d b tx.TxIn = [] := by
        unfold attributedSenders
        apply List.eq_nil_iff_forall_not_mem.2
        intro x hx
        obtain ⟨vin, hvin, hm⟩ := List.mem_filterMap.1 hx
        rw [hall vin hvin] at hm
        simp at hm
      rw [hnil]
      rfl
    refine ⟨hfrom, ?_⟩
    rw [parseTx_of_from d b tx k (none, none) hfrom (fun _ => rfl)]
    simp
  refine ⟨?_, ?_, hskip, ?_⟩
  · intro r e h
    obtain ⟨_, tos, total, oe, froms, _, _, hlen, hr⟩ := parseTx_some d b tx k r e h
    rw [hr]
    cases froms with
    | none => simp [Slice.len] at hlen
    | some l =>
      cases l with
      | nil => simp [Slice.len] at hlen
      | cons a rest => exact ⟨a, rest, rfl⟩
  · intro hnil
    exact (hskip (by rw [hnil]; simp)).2
  · intro hall
    refine (hskip ?_).2
    intro vin hvin
    obtain ⟨hcb, prevTx, prevOut, e, hget, hout, hpa, hkind⟩ := hall vin hvin
    rw [inputOutcome_of_prevOut d b vin prevTx prevOut hcb hget hout]
    rcases hp : parseAddress d b prevOut.PkScript with ⟨a, _ | err⟩
    · rw [hp] at hpa; simp at hpa
    · rw [hp] at hpa
      simp only [Option.some.injEq] at hpa
      subst hpa
      rcases hkind with hk | hk <;> simp [hk]

/-- C15, on the example chain: the deposit has the sender alice; a payment to
the watched address whose only input spends a null-data output yields
`(nil, nil)`. -/
theorem parseTx_from_nonempty_witness :
    (∃ r, parseTx demoDeps demoIndexer txDeposit 1 = .ok (some r, none) ∧
      ∃ a rest, r.From = some (a :: rest)) ∧
    (parseToAddress demoDeps demoIndexer txNoSender.TxOut).2.2.1 = true ∧
    parseTx demoDeps demoIndexer txNoSender 0 = .ok (none, none) :=
  ⟨⟨_, rfl, (parseTx_from_nonempty demoDeps demoIndexer txDeposit 1).1 _ none rfl⟩,
   rfl,
   (parseTx_from_nonempty demoDeps demoIndexer txNoSender 0).2.2.2 (by
      intro vin hvin
      simp only [txNoSender, demoTx, List.mem_singleton] at hvin
      subst hvin
      exact ⟨by decide, prevAlice, ⟨0, [0x6a]⟩,
        .wrapf "parse pkscript err:unsupported script type" (.sentinel .ErrParsePkScript),
        rfl, rfl, rfl, Or.inl rfl⟩)⟩

end AbeIndexer
